import Mathlib

/-!
# veilx settlement and authorization engine: a shallow embedding

This file embeds the settlement/authorization core of the veilx marketplace
server in Lean 4 and proves (or refutes) the specification claims about it.

Embedding conventions:
* The Postgres tables live in a `DbState`: the uniquely-keyed tables
  (`pool_balances`, keyed by its unique `account_hash`; `nfts`, keyed by its
  `id` primary key) are partial maps, the rest (`listings`, `trades`,
  `collections`, `pool_transactions`) are row lists.
* `numeric(18,8)` columns are modelled as exact rationals (`ℚ`).  The
  `parseFloat`/`toFixed(8)` round-trip performed by the TypeScript code is the
  identity on in-range 8-decimal values; the binary64 rounding itself is
  modelled separately (`dround`, `jsDeposit` below) where a claim is about
  floating-point behaviour.
* `db.transaction` blocks are functions `DbState → Except String …`; a thrown
  error rolls the transaction back, i.e. the caller keeps the old state.
* Cryptographic primitives (`ethers.keccak256`, `ethers.verifyTypedData`) are
  abstract function parameters threaded through the definitions.
-/

/-- The `type` column of `pool_transactions` / the `type` argument of
`DatabaseStorage.createOrUpdatePoolBalance`. -/
inductive PoolTxType
  | deposit
  | withdraw
  | mint_payment
  | nft_purchase
  | nft_sale
deriving DecidableEq, Repr

/-- A row of the `pool_balances` table. -/
structure PoolBalance where
  accountHash : String
  encryptedOwner : String
  balance : ℚ
  totalDeposited : ℚ
  totalSpent : ℚ
deriving DecidableEq, Repr

/-- A row of the `listings` table. -/
structure Listing where
  id : String
  nftId : String
  encryptedSeller : String
  price : ℚ
  isActive : Bool
deriving DecidableEq, Repr

/-- A row of the `trades` table. -/
structure Trade where
  nftId : String
  encryptedBuyer : String
  encryptedSeller : String
  price : ℚ
deriving DecidableEq, Repr

/-- A row of the `nfts` table (the fields the settlement engine touches). -/
structure Nft where
  id : String
  collectionId : String
  tokenId : Nat
  encryptedOwner : String
deriving DecidableEq, Repr

/-- A row of the `collections` table (the fields the settlement engine touches). -/
structure Collection where
  id : String
  contractAddress : Option String
deriving DecidableEq, Repr

/-- A row of the `pool_transactions` history table. -/
structure PoolTransaction where
  accountHash : String
  txType : PoolTxType
  amount : ℚ
  txHash : Option String
  nftId : Option String
deriving DecidableEq, Repr

/-- The relational store the settlement engine mutates.  `pool_balances` has a
`unique` constraint on `account_hash` and `nfts` is keyed by its `id` primary
key, so those two tables are modelled as keyed partial maps; the other tables
are row lists (`listings` in particular may hold several rows — active and
inactive — per `nftId`). -/
structure DbState where
  poolBalances : String → Option PoolBalance
  listings : List Listing
  trades : List Trade
  nfts : String → Option Nft
  collections : List Collection
  poolTransactions : List PoolTransaction

/-- The empty database. -/
def DbState.empty : DbState := ⟨fun _ => none, [], [], fun _ => none, [], []⟩

/-- Model of `DatabaseStorage.getPoolBalance`: `select … where accountHash = h`. -/
def getPoolBalance (s : DbState) (h : String) : Option PoolBalance :=
  s.poolBalances h

/-- Model of `DatabaseStorage.getNftById`. -/
def getNftById (s : DbState) (nftId : String) : Option Nft :=
  s.nfts nftId

/-- Model of `DatabaseStorage.getCollectionById`. -/
def getCollectionById (s : DbState) (cid : String) : Option Collection :=
  s.collections.find? (fun c => c.id = cid)

/-- Model of `DatabaseStorage.getListingByNftId`: the active listing for an NFT, if any. -/
def getListingByNftId (s : DbState) (nftId : String) : Option Listing :=
  s.listings.find? (fun l => l.nftId = nftId ∧ l.isActive)

/-- Model of `DatabaseStorage.deactivateListing`: `update listings set isActive = false
where id = listingId`. -/
def deactivateListing (s : DbState) (listingId : String) : DbState :=
  { s with listings :=
      s.listings.map (fun l => if l.id = listingId then { l with isActive := false } else l) }

/-- Model of `DatabaseStorage.updateNftOwner`: `update nfts set encryptedOwner where id`. -/
def updateNftOwner (s : DbState) (nftId : String) (encryptedOwner : String) : DbState :=
  { s with nfts := fun i =>
      if i = nftId then (s.nfts i).map (fun n => { n with encryptedOwner := encryptedOwner })
      else s.nfts i }

/-- Model of `DatabaseStorage.createTrade`: insert one row in `trades`. -/
def createTrade (s : DbState) (t : Trade) : DbState :=
  { s with trades := s.trades ++ [t] }

/-- Model of `DatabaseStorage.createListing` (src/unnamed/part_003, lines 310–323):
looks up the active listing for the NFT; if one exists it is **deactivated**,
then a fresh listing row (active by default) is inserted.  `freshId` stands for
the database-generated `gen_random_uuid()` primary key. -/
def createListing (s : DbState) (nftId encryptedSeller : String) (price : ℚ)
    (freshId : String) : DbState × Listing :=
  let s₁ :=
    match getListingByNftId s nftId with
    | some existing => deactivateListing s existing.id
    | none => s
  let l : Listing :=
    { id := freshId, nftId := nftId, encryptedSeller := encryptedSeller,
      price := price, isActive := true }
  ({ s₁ with listings := s₁.listings ++ [l] }, l)

/-- Helper: `update pool_balances set … where accountHash = h` writing every
modelled column / `insert into pool_balances values (pb)` — both store `pb`
at key `h`. -/
def setPoolRow (s : DbState) (h : String) (pb : PoolBalance) : DbState :=
  { s with poolBalances := fun h' => if h' = h then some pb else s.poolBalances h' }

/-- Helper: `update pool_balances set balance = v where accountHash = h` —
a column-wise update that overwrites only the `balance` field of whatever row
is currently stored at key `h`, keeping its other columns. -/
def updatePoolBalanceColumn (s : DbState) (h : String) (v : ℚ) : DbState :=
  { s with poolBalances := fun h' =>
      if h' = h then (s.poolBalances h').map (fun pb => { pb with balance := v })
      else s.poolBalances h' }

/-- Model of `DatabaseStorage.createOrUpdatePoolBalance` (src/unnamed/part_003,
lines 592–659).  Credits (`deposit`, `nft_sale`) always succeed and create the
account row if absent; debits (`withdraw`, `mint_payment`, `nft_purchase`)
require an existing row and throw `Insufficient balance` (`… for payment`)
when the balance would go negative.  A thrown error aborts the enclosing
`db.transaction`, so the caller keeps the pre-call state. -/
def createOrUpdatePoolBalance (s : DbState) (accountHash encryptedOwner : String)
    (amount : ℚ) (txType : PoolTxType) : Except String (DbState × PoolBalance) :=
  match getPoolBalance s accountHash with
  | some existing =>
    match txType with
    | .deposit =>
      let pb := { existing with
        balance := existing.balance + amount
        totalDeposited := existing.totalDeposited + amount }
      .ok (setPoolRow s accountHash pb, pb)
    | .nft_sale =>
      let pb := { existing with balance := existing.balance + amount }
      .ok (setPoolRow s accountHash pb, pb)
    | .withdraw =>
      if existing.balance - amount < 0 then .error "Insufficient balance"
      else
        let pb := { existing with balance := existing.balance - amount }
        .ok (setPoolRow s accountHash pb, pb)
    | _ =>
      -- mint_payment and nft_purchase are debits
      if existing.balance - amount < 0 then .error "Insufficient balance for payment"
      else
        let pb := { existing with
          balance := existing.balance - amount
          totalSpent := existing.totalSpent + amount }
        .ok (setPoolRow s accountHash pb, pb)
  | none =>
    match txType with
    | .deposit =>
      let pb : PoolBalance :=
        { accountHash := accountHash
          encryptedOwner := encryptedOwner
          balance := amount, totalDeposited := amount, totalSpent := 0 }
      .ok (setPoolRow s accountHash pb, pb)
    | .nft_sale =>
      let pb : PoolBalance :=
        { accountHash := accountHash
          encryptedOwner := encryptedOwner
          balance := amount, totalDeposited := 0, totalSpent := 0 }
      .ok (setPoolRow s accountHash pb, pb)
    | _ => .error "Cannot withdraw or spend without existing balance"

/-- Model of `DatabaseStorage.recordPoolTransaction`. -/
def recordPoolTransaction (s : DbState) (t : PoolTransaction) : DbState :=
  { s with poolTransactions := s.poolTransactions ++ [t] }

/-- Model of `DatabaseStorage.atomicPoolBuy` (src/unnamed/part_003, lines 776–890).
One `db.transaction`: lock/read the buyer row (error if absent or balance
below price), read the seller row **before** the buyer update (the source
selects `existingSellerPool` first), debit the buyer, credit (or create) the
seller, record the two history rows, insert the trade, re-point the NFT owner
and deactivate the listing.  The interpolated figures of the insufficient
balance message are elided. -/
def atomicPoolBuy (s : DbState) (nftId listingId buyerAccountHash encryptedBuyer
    encryptedSeller : String) (price : ℚ) (txHash : Option String) :
    Except String (DbState × Trade × PoolBalance × PoolBalance) :=
  match getPoolBalance s buyerAccountHash with
  | none => .error "No pool balance found. Please deposit ETH to your privacy pool before making a private purchase."
  | some buyerPoolBalance =>
    if buyerPoolBalance.balance < price then
      .error "Insufficient pool balance."
    else
      -- 2. seller row is read before the buyer row is updated
      let existingSellerPool := getPoolBalance s encryptedSeller
      -- 3. deduct from buyer
      let updatedBuyerBalance :=
        { buyerPoolBalance with
            balance := buyerPoolBalance.balance - price,
            totalSpent := buyerPoolBalance.totalSpent + price }
      let s₁ := setPoolRow s buyerAccountHash updatedBuyerBalance
      -- 4. credit to seller: `update pool_balances set balance = …,
      -- lastActivity = … where accountHash = sellerPool.accountHash` writes
      -- only the balance column of the stored row (so when buyer and seller
      -- are the same row, the buyer update's totalSpent increment persists
      -- while its balance debit is overwritten from the stale pre-debit
      -- snapshot); `.returning()` yields the row as stored afterwards.
      let (s₂, updatedSellerBalance) :=
        match existingSellerPool with
        | some sellerPool =>
          let sellerNewBalance := sellerPool.balance + price
          let s₂ := updatePoolBalanceColumn s₁ sellerPool.accountHash sellerNewBalance
          (s₂, (getPoolBalance s₂ sellerPool.accountHash).getD
                 { sellerPool with balance := sellerNewBalance })
        | none =>
          let pb : PoolBalance :=
            { accountHash := encryptedSeller, encryptedOwner := encryptedSeller,
              balance := price, totalDeposited := 0, totalSpent := 0 }
          (setPoolRow s₁ encryptedSeller pb, pb)
      -- 5. record pool transactions
      let s₃ := recordPoolTransaction s₂
        { accountHash := buyerAccountHash, txType := .nft_purchase,
          amount := price, txHash := txHash, nftId := some nftId }
      let s₄ := recordPoolTransaction s₃
        { accountHash := updatedSellerBalance.accountHash, txType := .nft_sale,
          amount := price, txHash := txHash, nftId := some nftId }
      -- 6. create trade record
      let trade : Trade :=
        { nftId := nftId, encryptedBuyer := encryptedBuyer,
          encryptedSeller := encryptedSeller, price := price }
      let s₅ := createTrade s₄ trade
      -- 7. update NFT ownership
      let s₆ := updateNftOwner s₅ nftId encryptedBuyer
      -- 8. deactivate listing
      let s₇ := deactivateListing s₆ listingId
      .ok (s₇, trade, updatedBuyerBalance, updatedSellerBalance)

/-! ## Signing layer (src/unnamed/part_001) and replay protection (src/server/routes.ts) -/

/-- Model of JavaScript `String.prototype.toLowerCase` (the inputs here are
ASCII hex addresses): lower-case every character. -/
def strLower (s : String) : String := ⟨s.data.map Char.toLower⟩

/-- Payload of a signed `buy` request (`BuySignatureData`,
src/unnamed/part_001); `expiresAt` is a unix timestamp in seconds. -/
structure BuyData where
  nftId : String
  price : String
  nonce : Nat
  expiresAt : Nat
deriving DecidableEq, Repr

/-- Model of `SignedRequest<T>` (src/unnamed/part_001) at `T = BuySignatureData`. -/
structure SignedReq where
  data : BuyData
  signature : String
  signer : String
deriving DecidableEq, Repr

/-- Maximum nonce age: `NONCE_EXPIRY_MS = 5 * 60 * 1000` (routes.ts). -/
def NONCE_EXPIRY_MS : Nat := 5 * 60 * 1000

/-- The replay-protection state of routes.ts: `usedNonces` (a map from signer
to its set of consumed nonces, modelled as the set of consumed
`(signerLower, nonce)` pairs) and `nonceTimestamps` (consumption time in ms,
keyed by the same pair). -/
structure NonceState where
  used : List (String × String)
  timestamps : List ((String × String) × Nat)
deriving DecidableEq, Repr

/-- Empty replay-protection state (server start-up). -/
def NonceState.empty : NonceState := ⟨[], []⟩

/-- Model of the periodic `setInterval` sweep of routes.ts: every consumed
pair whose timestamp is older than `NONCE_EXPIRY_MS * 2` is removed from both
`nonceTimestamps` and `usedNonces`. -/
def NonceState.gcSweep (st : NonceState) (nowMs : Nat) : NonceState :=
  { used := st.used.filter fun p =>
      ! st.timestamps.any fun e => e.1 == p && decide (nowMs - e.2 > NONCE_EXPIRY_MS * 2)
    timestamps := st.timestamps.filter fun e =>
      ! decide (nowMs - e.2 > NONCE_EXPIRY_MS * 2) }

/-- Model of `isSignatureExpired` (src/unnamed/part_001):
`Math.floor(Date.now() / 1000) > expiresAt`. -/
def isSignatureExpired (expiresAt : Nat) (nowMs : Nat) : Bool :=
  nowMs / 1000 > expiresAt

/-- Model of `verifySignature` (src/unnamed/part_001, lines 377–416).
`recover` abstracts `ethers.verifyTypedData` (EIP-712 recovery of the signing
address from payload and signature); the checks and their order follow the
source: declared signer vs expected signer, expiry, recovered address vs
declared signer. -/
def verifySignature (recover : BuyData → String → String)
    (req : SignedReq) (expectedSigner : String) (nowMs : Nat) : Bool :=
  if strLower req.signer ≠ strLower expectedSigner then false
  else if isSignatureExpired req.data.expiresAt nowMs then false
  else decide (strLower (recover req.data req.signature) = strLower req.signer)

/-- Outcome of `verifySignedRequest`. -/
inductive VerifyResult
  | ok (signer : String)
  | err (msg : String)
deriving DecidableEq, Repr

/-- True when the result is a success. -/
def VerifyResult.isOk : VerifyResult → Bool
  | .ok _ => true
  | .err _ => false

/-- Model of `verifySignedRequest` (src/server/routes.ts, lines 78–135).
`keccakLower` abstracts `ethers.keccak256 ∘ ethers.toUtf8Bytes` applied to the
lower-cased signer address.  Steps, in source order: account-hash binding,
EIP-712 signature check (which itself rejects expired requests), the route's
own expiry check (`expiresAt && Date.now() / 1000 > expiresAt`, a float
comparison, hence `1000 * expiresAt < nowMs`), then the nonce check; only the
success path consumes the nonce. -/
def verifySignedRequest (keccakLower : String → String)
    (recover : BuyData → String → String)
    (req : SignedReq) (expectedAccountHash : String) (nowMs : Nat)
    (st : NonceState) : VerifyResult × NonceState :=
  let computedHash := keccakLower (strLower req.signer)
  if computedHash ≠ expectedAccountHash then
    (.err "Signer address does not match account hash", st)
  else if ! verifySignature recover req req.signer nowMs then
    (.err "Invalid signature", st)
  else
    let nonce := toString req.data.nonce
    let signerLower := strLower req.signer
    if req.data.expiresAt ≠ 0 ∧ 1000 * req.data.expiresAt < nowMs then
      (.err "Request expired", st)
    else if (signerLower, nonce) ∈ st.used then
      (.err "Replay attack detected: nonce already used", st)
    else
      (.ok req.signer,
        { used := (signerLower, nonce) :: st.used
          timestamps := ((signerLower, nonce), nowMs) :: st.timestamps })

/-- An event touching the replay-protection state: an incoming signed request
(authorized via `verifySignedRequest`) or a garbage-collection sweep. -/
inductive NonceEvent
  | request (req : SignedReq) (expectedAccountHash : String) (nowMs : Nat)
  | sweep (nowMs : Nat)

/-- Time (ms) at which an event happens. -/
def NonceEvent.time : NonceEvent → Nat
  | .request _ _ t => t
  | .sweep t => t

/-- Effect of one event on the replay-protection state. -/
def applyNonceEvent (kc : String → String) (rc : BuyData → String → String)
    (st : NonceState) : NonceEvent → NonceState
  | .request req hash t => (verifySignedRequest kc rc req hash t st).2
  | .sweep t => st.gcSweep t

/-- Effect of a sequence of events on the replay-protection state. -/
def runNonceEvents (kc : String → String) (rc : BuyData → String → String)
    (st : NonceState) (evs : List NonceEvent) : NonceState :=
  evs.foldl (applyNonceEvent kc rc) st

/-! ## Chain collaborator (src/unnamed/part_004) and the buy routes -/

/-- Return type of `checkOnChainListingStatus` (`OnChainListingStatus`). -/
structure OnChainListingStatus where
  isListed : Bool
  price : Option ℚ
deriving DecidableEq, Repr

/-- Model of `checkOnChainListingStatus` (src/unnamed/part_004, lines
901–922).  The two contract reads (`collection.isListed(tokenId)` and
`collection.listingPrices(tokenId)`) are oracles that may fail; the source
wraps both in one try/catch and reports `{ isListed: false }` on any error.
The function performs no chain write. -/
def checkOnChainListingStatus
    (isListedOnChain : String → Nat → Except String Bool)
    (listingPriceOnChain : String → Nat → Except String ℚ)
    (collectionAddress : String) (tokenId : Nat) : OnChainListingStatus :=
  match isListedOnChain collectionAddress tokenId with
  | .error _ => { isListed := false, price := none }
  | .ok false => { isListed := false, price := none }
  | .ok true =>
    match listingPriceOnChain collectionAddress tokenId with
    | .error _ => { isListed := false, price := none }
    | .ok p => { isListed := true, price := some p }

/-- Result shape of the relayer write calls (`buyNFTViaRelayer` & co.):
`{ success, txHash?, error? }`. -/
structure RelayerResult where
  success : Bool
  txHash : Option String
  error : Option String
deriving DecidableEq, Repr

/-- The external collaborators of the buy routes: the chain read oracles, the
outcome of the (single) relayer write, the outcome of the server-side
encryption step, and the two configuration flags checked at the top of
`POST /api/buy/private`. -/
structure ChainEnv where
  isListedOnChain : String → Nat → Except String Bool
  listingPriceOnChain : String → Nat → Except String ℚ
  buyResult : RelayerResult
  encResult : Except String (String × String)
  relayerConfigured : Bool
  fhevmConfigured : Bool

/-- A minimal HTTP response: status code and the message / error string. -/
structure HttpResponse where
  status : Nat
  message : String
deriving DecidableEq, Repr

/-- Result of running a route handler: the response, the database state, the
replay-protection state, and the log of chain *write* calls issued. -/
structure HandlerResult where
  resp : HttpResponse
  db : DbState
  nonces : NonceState
  chainWrites : List String

/-- Request body of `POST /api/buy/private` (after zod validation). -/
structure PrivateBuyBody where
  nftId : String
  encryptedBuyer : String
  buyerAddress : String
  accountHash : String
  signedRequest : SignedReq
deriving DecidableEq, Repr

/-- Tail of `POST /api/buy/private` (src/server/routes.ts, lines 1073–1155):
everything after the on-chain listing reconciliation — own-NFT check, pool
balance precondition, server-side encryption, the relayer write
(`buyNFTViaRelayer`, appended to the write log), and on success the atomic
local commit `atomicPoolBuy`.  Thrown errors are caught by the route's
try/catch and surface as status 500 with no further mutation. -/
def privateBuySettle (env : ChainEnv) (body : PrivateBuyBody)
    (db : DbState) (nonces : NonceState) (nft : Nft) (listing : Listing) :
    HandlerResult :=
  if nft.encryptedOwner = body.encryptedBuyer then
    ⟨⟨400, "You already own this NFT"⟩, db, nonces, []⟩
  else
    match getPoolBalance db body.accountHash with
    | none =>
      ⟨⟨400, "No pool balance found. Please deposit ETH to your privacy pool first."⟩,
        db, nonces, []⟩
    | some buyerPoolBalance =>
      if buyerPoolBalance.balance < listing.price then
        ⟨⟨400, "Insufficient pool balance."⟩, db, nonces, []⟩
      else
        match env.encResult with
        | .error e => ⟨⟨500, "Failed to purchase NFT privately: " ++ e⟩, db, nonces, []⟩
        | .ok _ =>
          if ! env.buyResult.success then
            ⟨⟨500, env.buyResult.error.getD "Private buy failed"⟩,
              db, nonces, ["buyNFTViaRelayer"]⟩
          else
            match atomicPoolBuy db body.nftId listing.id body.accountHash
                body.encryptedBuyer listing.encryptedSeller listing.price
                env.buyResult.txHash with
            | .error e =>
              ⟨⟨500, "Failed to purchase NFT privately: " ++ e⟩,
                db, nonces, ["buyNFTViaRelayer"]⟩
            | .ok (db', _, _, _) =>
              ⟨⟨200, "NFT purchased privately! Payment processed through privacy pool."⟩,
                db', nonces, ["buyNFTViaRelayer"]⟩

/-- Model of `POST /api/buy/private` (src/server/routes.ts, lines 991–1163):
configuration checks, signed-request authorization (which consumes the nonce
on success), NFT / collection / listing lookups, the on-chain listing
reconciliation (read-repair: a listing the chain reports unlisted is
deactivated locally and the request aborts with 400), then `privateBuySettle`. -/
def buyPrivateHandler (kc : String → String) (rc : BuyData → String → String)
    (env : ChainEnv) (nowMs : Nat) (body : PrivateBuyBody)
    (db : DbState) (nonces : NonceState) : HandlerResult :=
  if ! env.relayerConfigured then
    ⟨⟨503, "Private buying not available - relayer not configured"⟩, db, nonces, []⟩
  else if ! env.fhevmConfigured then
    ⟨⟨503, "Private buying not available - server-side FHEVM not configured"⟩, db, nonces, []⟩
  else
    match verifySignedRequest kc rc body.signedRequest body.accountHash nowMs nonces with
    | (.err e, st') => ⟨⟨401, "Authorization failed: " ++ e⟩, db, st', []⟩
    | (.ok _, st') =>
      match getNftById db body.nftId with
      | none => ⟨⟨404, "NFT not found"⟩, db, st', []⟩
      | some nft =>
        match (getCollectionById db nft.collectionId).bind (fun c => c.contractAddress) with
        | none => ⟨⟨400, "Collection contract address not found"⟩, db, st', []⟩
        | some contractAddress =>
          match getListingByNftId db body.nftId with
          | none => ⟨⟨400, "NFT is not listed for sale"⟩, db, st', []⟩
          | some listing =>
            let onChainStatus := checkOnChainListingStatus env.isListedOnChain
              env.listingPriceOnChain contractAddress nft.tokenId
            if ! onChainStatus.isListed then
              ⟨⟨400, "NFT is no longer listed for sale. The listing has been updated."⟩,
                deactivateListing db listing.id, st', []⟩
            else
              privateBuySettle env body db st' nft listing

/-- Request body of `POST /api/buy` (after zod validation). -/
structure BuyBody where
  nftId : String
  listingId : String
  encryptedBuyer : String
deriving DecidableEq, Repr

/-- Model of `POST /api/buy` (src/server/routes.ts, lines 915–989): the public
buy route.  No signature verification and no nonce consumption; after the
lookups and the on-chain reconciliation (performed only when the collection
has a contract address) it creates the trade, re-points the NFT owner and
deactivates the listing — it never touches `pool_balances` and issues no
chain write. -/
def buyHandler (env : ChainEnv) (body : BuyBody)
    (db : DbState) (nonces : NonceState) : HandlerResult :=
  match getNftById db body.nftId with
  | none => ⟨⟨404, "NFT not found"⟩, db, nonces, []⟩
  | some nft =>
    let collectionAddress :=
      (getCollectionById db nft.collectionId).bind (fun c => c.contractAddress)
    match getListingByNftId db body.nftId with
    | none => ⟨⟨400, "NFT is not listed for sale"⟩, db, nonces, []⟩
    | some listing =>
      if listing.id ≠ body.listingId then
        ⟨⟨400, "NFT is not listed for sale"⟩, db, nonces, []⟩
      else
        let onChainOk :=
          match collectionAddress with
          | some addr =>
            (checkOnChainListingStatus env.isListedOnChain env.listingPriceOnChain
              addr nft.tokenId).isListed
          | none => true
        if ! onChainOk then
          ⟨⟨400, "NFT is no longer listed for sale. The listing has been updated."⟩,
            deactivateListing db listing.id, nonces, []⟩
        else if nft.encryptedOwner = body.encryptedBuyer then
          ⟨⟨400, "You already own this NFT"⟩, db, nonces, []⟩
        else
          let db₁ := createTrade db
            { nftId := body.nftId, encryptedBuyer := body.encryptedBuyer,
              encryptedSeller := listing.encryptedSeller, price := listing.price }
          let db₂ := updateNftOwner db₁ body.nftId body.encryptedBuyer
          let db₃ := deactivateListing db₂ body.listingId
          ⟨⟨200, "NFT purchased successfully"⟩, db₃, nonces, []⟩

/-! ## Ledger operation sequences (claims C3 and C8) -/

/-- One ledger operation: a `createOrUpdatePoolBalance` call (deposit,
withdrawal, mint payment, purchase debit or sale credit) or an
`atomicPoolBuy` settlement. -/
inductive LedgerOp
  | poolOp (accountHash encryptedOwner : String) (amount : ℚ) (txType : PoolTxType)
  | poolBuy (nftId listingId buyerAccountHash encryptedBuyer encryptedSeller : String)
      (price : ℚ) (txHash : Option String)

/-- The amount a ledger operation moves. -/
def LedgerOp.amount : LedgerOp → ℚ
  | .poolOp _ _ amt _ => amt
  | .poolBuy _ _ _ _ _ p _ => p

/-- Run one ledger operation; a thrown error aborts the `db.transaction`, so
the state is kept unchanged. -/
def applyLedgerOp (s : DbState) : LedgerOp → DbState
  | .poolOp a o amt t =>
    match createOrUpdatePoolBalance s a o amt t with
    | .ok (s', _) => s'
    | .error _ => s
  | .poolBuy n l b eb es p h =>
    match atomicPoolBuy s n l b eb es p h with
    | .ok (s', _, _, _) => s'
    | .error _ => s

/-- Run a sequence of ledger operations. -/
def runLedgerOps (s : DbState) (ops : List LedgerOp) : DbState :=
  ops.foldl applyLedgerOp s

/-- Every pool-balance row of the store is nonnegative. -/
def balancesNonneg (s : DbState) : Prop :=
  ∀ h pb, s.poolBalances h = some pb → 0 ≤ pb.balance

/-- Ghost accounting accumulated alongside a run: per account, the sale
proceeds credited so far and the amounts withdrawn so far (neither is stored
in a `pool_balances` column). -/
structure GhostTotals where
  proceeds : String → ℚ
  withdrawn : String → ℚ

/-- The zero ghost totals. -/
def GhostTotals.zero : GhostTotals := ⟨fun _ => 0, fun _ => 0⟩

/-- Bump a per-account total by an amount. -/
def bumpAt (f : String → ℚ) (a : String) (amt : ℚ) : String → ℚ :=
  fun x => if x = a then f x + amt else f x

/-- Run one ledger operation together with its ghost accounting: a successful
withdrawal adds to `withdrawn`, a successful sale credit (`nft_sale` /
the seller side of `atomicPoolBuy`) adds to `proceeds`. -/
def applyLedgerOpG (sg : DbState × GhostTotals) (op : LedgerOp) :
    DbState × GhostTotals :=
  let (s, g) := sg
  match op with
  | .poolOp a o amt t =>
    match createOrUpdatePoolBalance s a o amt t with
    | .ok (s', _) =>
      match t with
      | .withdraw => (s', { g with withdrawn := bumpAt g.withdrawn a amt })
      | .nft_sale => (s', { g with proceeds := bumpAt g.proceeds a amt })
      | _ => (s', g)
    | .error _ => (s, g)
  | .poolBuy n l b eb es p h =>
    match atomicPoolBuy s n l b eb es p h with
    | .ok (s', _, _, _) => (s', { g with proceeds := bumpAt g.proceeds es p })
    | .error _ => (s, g)

/-- Run a sequence of ledger operations with ghost accounting. -/
def runLedgerOpsG (sg : DbState × GhostTotals) (ops : List LedgerOp) :
    DbState × GhostTotals :=
  ops.foldl applyLedgerOpG sg

/-- The per-account conservation identity of claim C8, corrected for
withdrawals: every stored row satisfies
`balance = totalDeposited − totalSpent + proceeds − withdrawn`. -/
def ledgerIdentity (sg : DbState × GhostTotals) : Prop :=
  ∀ h pb, sg.1.poolBalances h = some pb →
    pb.balance = pb.totalDeposited - pb.totalSpent + sg.2.proceeds h - sg.2.withdrawn h

/-! ## Binary64 model of the `parseFloat`/`toFixed(8)` arithmetic (claim C9)

The TypeScript ledger stores `numeric(18,8)` strings and computes
`(parseFloat(balance) + parseFloat(amount)).toFixed(8)`.  `parseFloat` and
`+` round to the nearest IEEE-754 binary64 value (ties to even); `toFixed(8)`
rounds the binary64 value to the nearest 8-decimal string (ties away from
zero upward, which cannot occur on binary64 inputs).  `dround` below is exact
round-to-nearest-even binary64 rounding for numbers in the normal range
(every quantity in range for an 18-digit, 8-fraction-decimal column). -/

/-- Round to the nearest integer, ties to even: on a tie the even one of the
two neighbouring integers `⌊q⌋` and `⌊q⌋ + 1` is taken. -/
def roundHalfEven (q : ℚ) : ℤ :=
  if Int.fract q = 1 / 2 then (if Even ⌊q⌋ then ⌊q⌋ else ⌊q⌋ + 1) else round q

/-- Round a rational to the nearest IEEE-754 binary64 value (53-bit
significand, round to nearest, ties to even), ignoring overflow and
subnormals — exact for the normal range. -/
def dround (q : ℚ) : ℚ :=
  if q = 0 then 0
  else (roundHalfEven (q / 2 ^ (Int.log 2 |q| - 52)) : ℚ) * 2 ^ (Int.log 2 |q| - 52)

/-- Model of `Number.prototype.toFixed(8)` (as the rational the resulting
string denotes): round to the nearest multiple of `10⁻⁸`, ties upward. -/
def toFixed8 (q : ℚ) : ℚ :=
  (round (q * 10 ^ 8) : ℚ) / 10 ^ 8

/-- The balance produced by the deposit branch of
`createOrUpdatePoolBalance` for an existing account, at binary64 precision:
`(parseFloat(existing.balance) + parseFloat(amount)).toFixed(8)` where the
stored strings denote the exact 8-decimal rationals `b` and `x`. -/
def jsDeposit (b x : ℚ) : ℚ :=
  toFixed8 (dround (dround b + dround x))

/-- Balance after `n` repeated `jsDeposit` steps of amount `x`, from `b`. -/
def iterJsDeposit (b x : ℚ) : Nat → ℚ
  | 0 => b
  | n + 1 => jsDeposit (iterJsDeposit b x n) x

/-! ## Well-formedness -/

/-- Pool rows are stored under their own `accountHash` (the table key). -/
def poolKeyConsistent (s : DbState) : Prop :=
  ∀ h pb, s.poolBalances h = some pb → pb.accountHash = h

/-! ## Claim C1 -/

/-- C1: a successful settlement (`atomicPoolBuy`, the atomic pool-buy commit
executed after chain confirmation) at price `P`, with the buyer's account
existing and holding balance ≥ `P` (and buyer and seller being distinct pool
accounts, as in any two-party trade): the buyer's pool balance decreases by
exactly `P`, the seller's pool balance increases by exactly `P` (from `0` if
the seller had no pool account), exactly one new `Trade` row for that asset
is appended, and every `listings` row with the given listing id is Inactive
afterwards. -/
theorem atomicPoolBuy_settlement
    (s : DbState) (nftId listingId buyerHash encryptedBuyer encryptedSeller : String)
    (price : ℚ) (txHash : Option String) (b : PoolBalance)
    (hkey : poolKeyConsistent s)
    (hbuyer : getPoolBalance s buyerHash = some b)
    (hbal : price ≤ b.balance)
    (hne : buyerHash ≠ encryptedSeller) :
    ∃ s' trade buyerRow sellerRow,
      atomicPoolBuy s nftId listingId buyerHash encryptedBuyer encryptedSeller price txHash
        = .ok (s', trade, buyerRow, sellerRow)
      ∧ (getPoolBalance s' buyerHash).map PoolBalance.balance = some (b.balance - price)
      ∧ (getPoolBalance s' encryptedSeller).map PoolBalance.balance
          = some (((getPoolBalance s encryptedSeller).map PoolBalance.balance).getD 0 + price)
      ∧ s'.trades = s.trades ++ [trade] ∧ trade.nftId = nftId
      ∧ ∀ l ∈ s'.listings, l.id = listingId → l.isActive = false := by
  have hnlt : ¬ b.balance < price := not_lt.mpr hbal
  cases hsell : getPoolBalance s encryptedSeller with
  | none =>
    simp only [atomicPoolBuy, hbuyer, hsell, hnlt, if_false]
    refine ⟨_, _, _, _, rfl, ?_, ?_, rfl, rfl, ?_⟩
    · simp only [deactivateListing, updateNftOwner, createTrade, recordPoolTransaction,
        setPoolRow, getPoolBalance]
      simp [hne]
    · simp only [deactivateListing, updateNftOwner, createTrade, recordPoolTransaction,
        setPoolRow, getPoolBalance]
      simp
    · intro l hl hid
      revert hl
      simp only [deactivateListing, updateNftOwner, createTrade, recordPoolTransaction,
        setPoolRow, List.mem_map]
      rintro ⟨a, _, rfl⟩
      by_cases ha : a.id = listingId <;> simp_all
  | some sellerPool =>
    have hsk : sellerPool.accountHash = encryptedSeller := hkey _ _ hsell
    have hsell' : s.poolBalances encryptedSeller = some sellerPool := hsell
    simp only [atomicPoolBuy, hbuyer, hsell, hnlt, if_false]
    refine ⟨_, _, _, _, rfl, ?_, ?_, rfl, rfl, ?_⟩
    · simp only [deactivateListing, updateNftOwner, createTrade, recordPoolTransaction,
        setPoolRow, updatePoolBalanceColumn, getPoolBalance, hsk]
      simp [hne]
    · simp only [deactivateListing, updateNftOwner, createTrade, recordPoolTransaction,
        setPoolRow, updatePoolBalanceColumn, getPoolBalance, hsk, hsell']
      simp [Ne.symm hne]
    · intro l hl hid
      revert hl
      simp only [deactivateListing, updateNftOwner, createTrade, recordPoolTransaction,
        setPoolRow, List.mem_map]
      rintro ⟨a, _, rfl⟩
      by_cases ha : a.id = listingId <;> simp_all

/-- Concrete buyer row for the C1 witness scenario. -/
def w1Buyer : PoolBalance := ⟨"0xb", "0xb", 5, 5, 0⟩

/-- Concrete one-listing database for the C1 witness scenario. -/
def w1Db : DbState :=
  { DbState.empty with
      poolBalances := fun h => if h = "0xb" then some w1Buyer else none
      listings := [⟨"L1", "N1", "0xs", 2, true⟩] }

/-- Key consistency of the C1 witness database. -/
theorem w1Db_keyConsistent : poolKeyConsistent w1Db := by
  intro h pb hpb
  by_cases hh : h = "0xb" <;> simp_all [w1Db, DbState.empty, w1Buyer]
  simp [← hpb]

/-- Witness for C1: the settlement theorem applied to a concrete store. -/
theorem atomicPoolBuy_settlement_witness :
    poolKeyConsistent w1Db ∧ getPoolBalance w1Db "0xb" = some w1Buyer ∧
    (2 : ℚ) ≤ w1Buyer.balance ∧ "0xb" ≠ "0xs" ∧
    (∃ s' trade buyerRow sellerRow,
      atomicPoolBuy w1Db "N1" "L1" "0xb" "0xbuyer" "0xs" 2 none
        = .ok (s', trade, buyerRow, sellerRow)
      ∧ (getPoolBalance s' "0xb").map PoolBalance.balance = some (w1Buyer.balance - 2)
      ∧ (getPoolBalance s' "0xs").map PoolBalance.balance
          = some (((getPoolBalance w1Db "0xs").map PoolBalance.balance).getD 0 + 2)
      ∧ s'.trades = w1Db.trades ++ [trade] ∧ trade.nftId = "N1"
      ∧ ∀ l ∈ s'.listings, l.id = "L1" → l.isActive = false) :=
  ⟨w1Db_keyConsistent, rfl, by decide, by decide,
    atomicPoolBuy_settlement w1Db "N1" "L1" "0xb" "0xbuyer" "0xs" 2 none w1Buyer
      w1Db_keyConsistent rfl (by decide) (by decide)⟩

/-! ## Claim C7 -/

/-- Concrete database with one active listing for asset `N1` (claim C7). -/
def c7Db : DbState :=
  { DbState.empty with listings := [⟨"L1", "N1", "0xs", 2, true⟩] }

/-- Counterexample to C7 as stated: asset `N1` already has an Active listing,
yet `createListing` for `N1` does not fail with `AlreadyListed` — it succeeds,
deactivates the existing listing (so the existing listing does not stay
Active) and inserts a fresh Active one; moreover a second call with price `0`
is accepted, so no `price > 0` validation exists either. -/
theorem createListing_counterexample :
    getListingByNftId c7Db "N1" = some ⟨"L1", "N1", "0xs", 2, true⟩ ∧
    (createListing c7Db "N1" "0xs2" 3 "L2").1.listings
      = [⟨"L1", "N1", "0xs", 2, false⟩, ⟨"L2", "N1", "0xs2", 3, true⟩] ∧
    (createListing c7Db "N1" "0xs2" 0 "L2").2 = ⟨"L2", "N1", "0xs2", 0, true⟩ := by
  refine ⟨by decide, by decide, by decide⟩

/-- C7 amended: `createListing` on an asset that already has an Active
listing does not fail — it deactivates the existing active listing and
appends a new Active listing row at the requested price (replace semantics,
any price accepted, `0` included); when the asset had at most one active
listing before the call, the freshly inserted listing is afterwards the only
active listing for the asset. -/
theorem createListing_replaces
    (s : DbState) (nftId seller : String) (price : ℚ) (freshId : String)
    (l : Listing)
    (hfind : getListingByNftId s nftId = some l)
    (huniq : ∀ l' ∈ s.listings, l'.isActive = true → l'.nftId = nftId → l'.id = l.id) :
    createListing s nftId seller price freshId
      = (deactivateListing s l.id |>.listings.append
          [⟨freshId, nftId, seller, price, true⟩] |>
            (fun ls => { deactivateListing s l.id with listings := ls }),
         ⟨freshId, nftId, seller, price, true⟩)
    ∧ ∀ l' ∈ (createListing s nftId seller price freshId).1.listings,
        l'.isActive = true → l'.nftId = nftId →
          l' = ⟨freshId, nftId, seller, price, true⟩ := by
  constructor
  · simp only [createListing, hfind]
    rfl
  · intro l' hl' hact hnid
    simp only [createListing, hfind, List.mem_append, List.mem_map,
      deactivateListing, List.mem_singleton] at hl'
    rcases hl' with ⟨a, ha, rfl⟩ | rfl
    · by_cases hid : a.id = l.id
      · simp [hid] at hact
      · simp only [hid, if_false] at hact hnid ⊢
        exact absurd (huniq a ha hact hnid) hid
    · rfl

/-- Witness for the amended C7 at a concrete store. -/
theorem createListing_replaces_witness :
    getListingByNftId c7Db "N1" = some ⟨"L1", "N1", "0xs", 2, true⟩ ∧
    ∀ l' ∈ (createListing c7Db "N1" "0xs2" 3 "L2").1.listings,
        l'.isActive = true → l'.nftId = "N1" → l' = ⟨"L2", "N1", "0xs2", 3, true⟩ :=
  ⟨by decide,
    (createListing_replaces c7Db "N1" "0xs2" 3 "L2" ⟨"L1", "N1", "0xs", 2, true⟩
      (by decide) (by decide)).2⟩

/-! ## Claim C3 -/

/-- Storing a nonnegative row keeps all balances nonnegative. -/
theorem balancesNonneg_setPoolRow (s : DbState) (h : String) (pb : PoolBalance)
    (hs : balancesNonneg s) (hpb : 0 ≤ pb.balance) :
    balancesNonneg (setPoolRow s h pb) := by
  intro h' pb' heq
  simp only [setPoolRow] at heq
  by_cases hh : h' = h
  · subst hh
    rw [if_pos rfl] at heq
    injection heq with h2
    exact h2 ▸ hpb
  · simp only [if_neg hh] at heq
    exact hs h' pb' heq

/-- A column-wise balance write of a nonnegative value keeps all balances
nonnegative. -/
theorem balancesNonneg_updatePoolBalanceColumn (s : DbState) (h : String) (v : ℚ)
    (hs : balancesNonneg s) (hv : 0 ≤ v) :
    balancesNonneg (updatePoolBalanceColumn s h v) := by
  intro h' pb' heq
  simp only [updatePoolBalanceColumn] at heq
  by_cases hh : h' = h
  · subst hh
    rw [if_pos rfl] at heq
    rcases hmem : s.poolBalances h' with _ | r
    · rw [hmem] at heq
      exact Option.noConfusion heq
    · rw [hmem] at heq
      simp only [Option.map_some', Option.some.injEq] at heq
      rw [← heq]
      exact hv
  · rw [if_neg hh] at heq
    exact hs h' pb' heq

/-- On a key that currently stores row `r`, the column-wise balance write
coincides with storing `r` with its balance replaced. -/
theorem updatePoolBalanceColumn_eq_setPoolRow (s : DbState) (h : String) (v : ℚ)
    (r : PoolBalance) (hr : s.poolBalances h = some r) :
    updatePoolBalanceColumn s h v = setPoolRow s h { r with balance := v } := by
  simp only [updatePoolBalanceColumn, setPoolRow]
  congr 1
  funext h'
  by_cases hh : h' = h
  · subst hh
    rw [if_pos rfl, if_pos rfl, hr]
    rfl
  · rw [if_neg hh, if_neg hh]

/-- One ledger operation with a nonnegative amount keeps all balances
nonnegative. -/
theorem balancesNonneg_applyLedgerOp (s : DbState) (op : LedgerOp)
    (hs : balancesNonneg s) (hamt : 0 ≤ op.amount) :
    balancesNonneg (applyLedgerOp s op) := by
  cases op with
  | poolOp a o amt t =>
    simp only [LedgerOp.amount] at hamt
    simp only [applyLedgerOp, createOrUpdatePoolBalance]
    cases hrow : getPoolBalance s a with
    | some existing =>
      have hex : 0 ≤ existing.balance := hs a existing hrow
      cases t with
      | deposit => exact balancesNonneg_setPoolRow _ _ _ hs (by positivity)
      | nft_sale => exact balancesNonneg_setPoolRow _ _ _ hs (by positivity)
      | withdraw =>
        by_cases hneg : existing.balance - amt < 0
        · simp only [hneg, if_true]; exact hs
        · simp only [hneg, if_false]
          exact balancesNonneg_setPoolRow _ _ _ hs (not_lt.mp hneg)
      | mint_payment =>
        by_cases hneg : existing.balance - amt < 0
        · simp only [hneg, if_true]; exact hs
        · simp only [hneg, if_false]
          exact balancesNonneg_setPoolRow _ _ _ hs (not_lt.mp hneg)
      | nft_purchase =>
        by_cases hneg : existing.balance - amt < 0
        · simp only [hneg, if_true]; exact hs
        · simp only [hneg, if_false]
          exact balancesNonneg_setPoolRow _ _ _ hs (not_lt.mp hneg)
    | none =>
      cases t with
      | deposit => exact balancesNonneg_setPoolRow _ _ _ hs hamt
      | nft_sale => exact balancesNonneg_setPoolRow _ _ _ hs hamt
      | withdraw => exact hs
      | mint_payment => exact hs
      | nft_purchase => exact hs
  | poolBuy n l bh eb es p h =>
    simp only [LedgerOp.amount] at hamt
    simp only [applyLedgerOp, atomicPoolBuy]
    cases hrow : getPoolBalance s bh with
    | none => exact hs
    | some bp =>
      by_cases hlt : bp.balance < p
      · simp only [hlt, if_true]; exact hs
      · simp only [hlt, if_false]
        have hbp : 0 ≤ bp.balance - p := by
          have := not_lt.mp hlt; linarith
        cases hsell : getPoolBalance s es with
        | some sellerPool =>
          have hsp : 0 ≤ sellerPool.balance := hs es sellerPool hsell
          simp only [deactivateListing, updateNftOwner, createTrade, recordPoolTransaction]
          exact balancesNonneg_updatePoolBalanceColumn _ _ _
            (balancesNonneg_setPoolRow _ _ _ hs hbp) (by positivity)
        | none =>
          simp only [deactivateListing, updateNftOwner, createTrade, recordPoolTransaction]
          exact balancesNonneg_setPoolRow _ _ _
            (balancesNonneg_setPoolRow _ _ _ hs hbp) hamt

/-- Nonnegativity of all balances is preserved along any run of ledger
operations with nonnegative amounts. -/
theorem balancesNonneg_runLedgerOps (ops : List LedgerOp) :
    ∀ s : DbState, balancesNonneg s → (∀ op ∈ ops, 0 ≤ op.amount) →
      balancesNonneg (runLedgerOps s ops) := by
  induction ops with
  | nil => intro s hs _; exact hs
  | cons op rest ih =>
    intro s hs hops
    have h1 : balancesNonneg (applyLedgerOp s op) :=
      balancesNonneg_applyLedgerOp s op hs (hops op (by simp))
    exact ih _ h1 (fun o ho => hops o (by simp [ho]))

/-- C3: for every starting store with nonnegative balances and every sequence
of ledger operations with nonnegative amounts, every account balance is ≥ 0
after every step; moreover any debit (withdrawal, mint payment, purchase) that
would drive an existing account negative fails with an insufficient-balance
error and leaves the whole store unchanged, and the same holds for a
settlement whose buyer balance is below the price. -/
theorem ledger_balance_invariant
    (ops : List LedgerOp) (hamts : ∀ op ∈ ops, 0 ≤ op.amount)
    (s₀ : DbState) (hs₀ : balancesNonneg s₀) :
    (∀ n, balancesNonneg (runLedgerOps s₀ (ops.take n))) ∧
    (∀ s a o amt t pb, getPoolBalance s a = some pb → pb.balance - amt < 0 →
        t = PoolTxType.withdraw ∨ t = PoolTxType.mint_payment ∨ t = PoolTxType.nft_purchase →
        (∃ msg, createOrUpdatePoolBalance s a o amt t = .error msg
           ∧ (msg = "Insufficient balance" ∨ msg = "Insufficient balance for payment"))
        ∧ applyLedgerOp s (.poolOp a o amt t) = s) ∧
    (∀ n l bh eb es p h s pb, getPoolBalance s bh = some pb → pb.balance < p →
        atomicPoolBuy s n l bh eb es p h = .error "Insufficient pool balance."
        ∧ applyLedgerOp s (.poolBuy n l bh eb es p h) = s) := by
  refine ⟨?_, ?_, ?_⟩
  · intro n
    exact balancesNonneg_runLedgerOps (ops.take n) s₀ hs₀
      (fun op hop => hamts op (List.take_subset n ops hop))
  · intro s a o amt t pb hrow hneg ht
    rcases ht with rfl | rfl | rfl
    · exact ⟨⟨"Insufficient balance",
        by simp only [createOrUpdatePoolBalance, hrow, hneg, if_true], Or.inl rfl⟩,
        by simp only [applyLedgerOp, createOrUpdatePoolBalance, hrow, hneg, if_true]⟩
    · exact ⟨⟨"Insufficient balance for payment",
        by simp only [createOrUpdatePoolBalance, hrow, hneg, if_true], Or.inr rfl⟩,
        by simp only [applyLedgerOp, createOrUpdatePoolBalance, hrow, hneg, if_true]⟩
    · exact ⟨⟨"Insufficient balance for payment",
        by simp only [createOrUpdatePoolBalance, hrow, hneg, if_true], Or.inr rfl⟩,
        by simp only [applyLedgerOp, createOrUpdatePoolBalance, hrow, hneg, if_true]⟩
  · intro n l bh eb es p h s pb hrow hlt
    exact ⟨by simp only [atomicPoolBuy, hrow, hlt, if_true],
      by simp only [applyLedgerOp, atomicPoolBuy, hrow, hlt, if_true]⟩

/-- A concrete operation sequence for the C3 witness: deposit 5, withdraw 2,
then attempt a purchase of 10 (which fails and changes nothing). -/
def c3Ops : List LedgerOp :=
  [.poolOp "0xa" "0xa" 5 .deposit,
   .poolOp "0xa" "0xa" 2 .withdraw,
   .poolOp "0xa" "0xa" 10 .nft_purchase]

/-- All amounts of the C3 witness sequence are nonnegative. -/
theorem c3Ops_nonneg : ∀ op ∈ c3Ops, 0 ≤ op.amount := by
  intro op hop
  simp only [c3Ops, List.mem_cons, List.not_mem_nil, or_false] at hop
  rcases hop with rfl | rfl | rfl <;> norm_num [LedgerOp.amount]

/-- The empty store has nonnegative balances. -/
theorem empty_balancesNonneg : balancesNonneg DbState.empty :=
  fun _ _ h => Option.noConfusion h

/-- Witness for C3 at a concrete operation sequence. -/
theorem ledger_balance_invariant_witness :
    (∀ op ∈ c3Ops, 0 ≤ op.amount) ∧ balancesNonneg DbState.empty ∧
    balancesNonneg (runLedgerOps DbState.empty (c3Ops.take 3)) :=
  ⟨c3Ops_nonneg, empty_balancesNonneg,
    (ledger_balance_invariant c3Ops c3Ops_nonneg DbState.empty empty_balancesNonneg).1 3⟩

/-! ## Claim C8 -/

/-- Concrete operation sequence refuting the C8 identity as stated: a deposit
of 5 followed by a withdrawal of 2. -/
def c8Ops : List LedgerOp :=
  [.poolOp "0xa" "0xa" 5 .deposit, .poolOp "0xa" "0xa" 2 .withdraw]

/-- Counterexample to C8 as stated: after `deposit 5; withdraw 2` the account
holds `balance = 3`, `totalDeposited = 5`, `totalSpent = 0` and has received
no sale proceeds, so `balance ≠ totalDeposited − totalSpent + proceeds`
(3 ≠ 5): the stated identity ignores withdrawals. -/
theorem ledger_identity_counterexample :
    getPoolBalance (runLedgerOpsG (DbState.empty, GhostTotals.zero) c8Ops).1 "0xa"
      = some ⟨"0xa", "0xa", 3, 5, 0⟩
    ∧ (runLedgerOpsG (DbState.empty, GhostTotals.zero) c8Ops).2.proceeds "0xa" = 0
    ∧ ¬ ((3 : ℚ) = 5 - 0 + 0) := by
  refine ⟨?_, ?_, by norm_num⟩ <;>
    norm_num [c8Ops, runLedgerOpsG, applyLedgerOpG, createOrUpdatePoolBalance,
      getPoolBalance, setPoolRow, DbState.empty, GhostTotals.zero, bumpAt,
      PoolBalance.mk.injEq]

/-- Value of a bumped total at the bumped account. -/
theorem bumpAt_same (f : String → ℚ) (a : String) (amt : ℚ) :
    bumpAt f a amt a = f a + amt := by
  simp [bumpAt]

/-- Value of a bumped total elsewhere. -/
theorem bumpAt_other (f : String → ℚ) (a h : String) (amt : ℚ) (hh : h ≠ a) :
    bumpAt f a amt h = f h := by
  simp [bumpAt, hh]

/-- A ledger operation in two-party shape: every settlement's buyer pool
account differs from its seller reference.  A self-settlement
(`buyerAccountHash = encryptedSeller`) genuinely breaks the conservation
identity in the source: the seller UPDATE writes only the balance column
(from the pre-debit snapshot) while the buyer update's `totalSpent`
increment on the same row persists. -/
def LedgerOp.twoParty : LedgerOp → Prop
  | .poolOp _ _ _ _ => True
  | .poolBuy _ _ b _ es _ _ => b ≠ es

/-- The full inductive invariant for the corrected conservation identity:
rows are stored under their own hash, every row satisfies
`balance = totalDeposited − totalSpent + proceeds − withdrawn`, and accounts
with no row have no ghost totals. -/
def ledgerInv (sg : DbState × GhostTotals) : Prop :=
  poolKeyConsistent sg.1 ∧ ledgerIdentity sg ∧
  ∀ h, sg.1.poolBalances h = none → sg.2.proceeds h = 0 ∧ sg.2.withdrawn h = 0

/-- Writing one row (stored under its own hash, satisfying the identity
against the new ghost totals, which agree with the old ones away from the
written key) preserves the invariant. -/
theorem ledgerInv_step (s : DbState) (g : GhostTotals)
    (hinv : ledgerInv (s, g)) (a : String) (pb : PoolBalance) (g' : GhostTotals)
    (hkeyA : pb.accountHash = a)
    (hout : ∀ h, h ≠ a → g'.proceeds h = g.proceeds h ∧ g'.withdrawn h = g.withdrawn h)
    (hidA : pb.balance = pb.totalDeposited - pb.totalSpent + g'.proceeds a - g'.withdrawn a) :
    ledgerInv (setPoolRow s a pb, g') := by
  obtain ⟨hkey, hid, habs⟩ := hinv
  refine ⟨?_, ?_, ?_⟩
  · intro h pb' heq
    simp only [setPoolRow] at heq
    by_cases hh : h = a
    · subst hh; rw [if_pos rfl] at heq; injection heq with h2; exact h2 ▸ hkeyA ▸ rfl
    · rw [if_neg hh] at heq; exact hkey h pb' heq
  · intro h pb' heq
    simp only [setPoolRow] at heq
    by_cases hh : h = a
    · subst hh; rw [if_pos rfl] at heq; injection heq with h2; exact h2 ▸ hidA
    · rw [if_neg hh] at heq
      rcases hout h hh with ⟨hp, hw⟩
      rw [hp, hw]
      exact hid h pb' heq
  · intro h hnone
    simp only [setPoolRow] at hnone
    by_cases hh : h = a
    · subst hh; rw [if_pos rfl] at hnone; exact Option.noConfusion hnone
    · rw [if_neg hh] at hnone
      rcases hout h hh with ⟨hp, hw⟩
      rcases habs h hnone with ⟨hp0, hw0⟩
      exact ⟨hp.trans hp0, hw.trans hw0⟩

/-- The invariant only looks at the pool-balance map and the ghost totals. -/
theorem ledgerInv_congr (s s' : DbState) (g : GhostTotals)
    (hsame : s'.poolBalances = s.poolBalances) (hinv : ledgerInv (s, g)) :
    ledgerInv (s', g) := by
  obtain ⟨hkey, hid, habs⟩ := hinv
  refine ⟨?_, ?_, ?_⟩
  · intro h pb heq; exact hkey h pb (hsame ▸ heq)
  · intro h pb heq; exact hid h pb (hsame ▸ heq)
  · intro h hnone; exact habs h (hsame ▸ hnone)

/-- One two-party ledger operation (with its ghost accounting) preserves the
invariant. -/
theorem ledgerInv_applyLedgerOpG (sg : DbState × GhostTotals)
    (hinv : ledgerInv sg) (op : LedgerOp) (htp : op.twoParty) :
    ledgerInv (applyLedgerOpG sg op) := by
  obtain ⟨s, g⟩ := sg
  obtain ⟨hkey, hid, habs⟩ := hinv
  cases op with
  | poolOp a o amt t =>
    simp only [applyLedgerOpG, createOrUpdatePoolBalance]
    cases hrow : getPoolBalance s a with
    | some existing =>
      have hekey : existing.accountHash = a := hkey a existing hrow
      have heid : existing.balance
          = existing.totalDeposited - existing.totalSpent + g.proceeds a - g.withdrawn a :=
        hid a existing hrow
      cases t with
      | deposit =>
        exact ledgerInv_step s g ⟨hkey, hid, habs⟩ a _ g hekey
          (fun h _ => ⟨rfl, rfl⟩) (by simp only; linarith)
      | nft_sale =>
        refine ledgerInv_step s g ⟨hkey, hid, habs⟩ a _ _ hekey ?_ ?_
        · intro h hh; exact ⟨bumpAt_other _ _ _ _ hh, rfl⟩
        · simp only [bumpAt_same]; linarith
      | withdraw =>
        by_cases hneg : existing.balance - amt < 0
        · simp only [hneg, if_true]; exact ⟨hkey, hid, habs⟩
        · simp only [hneg, if_false]
          refine ledgerInv_step s g ⟨hkey, hid, habs⟩ a _ _ hekey ?_ ?_
          · intro h hh; exact ⟨rfl, bumpAt_other _ _ _ _ hh⟩
          · simp only [bumpAt_same]; linarith
      | mint_payment =>
        by_cases hneg : existing.balance - amt < 0
        · simp only [hneg, if_true]; exact ⟨hkey, hid, habs⟩
        · simp only [hneg, if_false]
          exact ledgerInv_step s g ⟨hkey, hid, habs⟩ a _ g hekey
            (fun h _ => ⟨rfl, rfl⟩) (by simp only; linarith)
      | nft_purchase =>
        by_cases hneg : existing.balance - amt < 0
        · simp only [hneg, if_true]; exact ⟨hkey, hid, habs⟩
        · simp only [hneg, if_false]
          exact ledgerInv_step s g ⟨hkey, hid, habs⟩ a _ g hekey
            (fun h _ => ⟨rfl, rfl⟩) (by simp only; linarith)
    | none =>
      have habs0 := habs a hrow
      cases t with
      | deposit =>
        exact ledgerInv_step s g ⟨hkey, hid, habs⟩ a _ g rfl
          (fun h _ => ⟨rfl, rfl⟩) (by simp only; linarith [habs0.1, habs0.2])
      | nft_sale =>
        refine ledgerInv_step s g ⟨hkey, hid, habs⟩ a _ _ rfl ?_ ?_
        · intro h hh; exact ⟨bumpAt_other _ _ _ _ hh, rfl⟩
        · simp only [bumpAt_same]; linarith [habs0.1, habs0.2]
      | withdraw => exact ⟨hkey, hid, habs⟩
      | mint_payment => exact ⟨hkey, hid, habs⟩
      | nft_purchase => exact ⟨hkey, hid, habs⟩
  | poolBuy n l bh eb es p h =>
    have hne : bh ≠ es := htp
    simp only [applyLedgerOpG, atomicPoolBuy]
    cases hrow : getPoolBalance s bh with
    | none => exact ⟨hkey, hid, habs⟩
    | some bp =>
      by_cases hlt : bp.balance < p
      · simp only [hlt, if_true]; exact ⟨hkey, hid, habs⟩
      · simp only [hlt, if_false]
        have hbkey : bp.accountHash = bh := hkey bh bp hrow
        have hbid : bp.balance
            = bp.totalDeposited - bp.totalSpent + g.proceeds bh - g.withdrawn bh :=
          hid bh bp hrow
        have hinv₁ : ledgerInv (setPoolRow s bh
            { bp with balance := bp.balance - p, totalSpent := bp.totalSpent + p }, g) :=
          ledgerInv_step s g ⟨hkey, hid, habs⟩ bh _ g hbkey
            (fun h _ => ⟨rfl, rfl⟩) (by simp only; linarith)
        cases hsell : getPoolBalance s es with
        | some sellerPool =>
          have hskey : sellerPool.accountHash = es := hkey es sellerPool hsell
          have hsid : sellerPool.balance
              = sellerPool.totalDeposited - sellerPool.totalSpent
                + g.proceeds es - g.withdrawn es :=
            hid es sellerPool hsell
          have hstored : (setPoolRow s bh
              { bp with balance := bp.balance - p, totalSpent := bp.totalSpent + p
              }).poolBalances sellerPool.accountHash = some sellerPool := by
            rw [hskey]
            simp only [setPoolRow]
            rw [if_neg (Ne.symm hne)]
            exact hsell
          have hinv₂ : ledgerInv (updatePoolBalanceColumn
              (setPoolRow s bh
                { bp with balance := bp.balance - p, totalSpent := bp.totalSpent + p })
              sellerPool.accountHash (sellerPool.balance + p),
              { proceeds := bumpAt g.proceeds es p, withdrawn := g.withdrawn }) := by
            rw [updatePoolBalanceColumn_eq_setPoolRow _ _ _ sellerPool hstored]
            refine ledgerInv_step _ g hinv₁ sellerPool.accountHash _ _ rfl ?_ ?_
            · intro h hh
              rw [hskey] at hh
              exact ⟨bumpAt_other _ _ _ _ hh, rfl⟩
            · rw [hskey]
              simp only [bumpAt_same]
              linarith
          exact ledgerInv_congr _ _ _ (by rfl) hinv₂
        | none =>
          have habs0 := habs es hsell
          have hinv₂ : ledgerInv (setPoolRow
              (setPoolRow s bh
                { bp with balance := bp.balance - p, totalSpent := bp.totalSpent + p })
              es ⟨es, es, p, 0, 0⟩,
              { proceeds := bumpAt g.proceeds es p, withdrawn := g.withdrawn }) := by
            refine ledgerInv_step _ g hinv₁ es _ _ rfl ?_ ?_
            · intro h hh; exact ⟨bumpAt_other _ _ _ _ hh, rfl⟩
            · simp only [bumpAt_same]; linarith [habs0.1, habs0.2]
          exact ledgerInv_congr _ _ _ (by rfl) hinv₂

/-- The invariant holds along any run of two-party operations. -/
theorem ledgerInv_runLedgerOpsG (ops : List LedgerOp) :
    ∀ sg, ledgerInv sg → (∀ op ∈ ops, op.twoParty) →
      ledgerInv (runLedgerOpsG sg ops) := by
  induction ops with
  | nil => intro sg hsg _; exact hsg
  | cons op rest ih =>
    intro sg hsg hops
    exact ih _ (ledgerInv_applyLedgerOpG sg hsg op (hops op (by simp)))
      (fun o ho => hops o (by simp [ho]))

/-- C8 amended: starting from the empty store, after every step of any
sequence of ledger operations in which every settlement is two-party
(buyer pool account distinct from the seller reference), every account
satisfies `balance = totalDeposited − totalSpent + proceeds − withdrawn`,
where `proceeds` are the sale credits received and `withdrawn` the amounts
withdrawn.  Both restrictions are forced by the code: a withdrawal lowers
`balance` without touching `totalDeposited`/`totalSpent`, and a
self-settlement leaves the buyer's `totalSpent` increment on the row while
overwriting the debit with the stale pre-debit balance plus the price, so
the row gains `price` in `balance` *and* `price` in `totalSpent`, breaking
any per-row identity in these columns. -/
theorem ledger_conservation_identity (ops : List LedgerOp)
    (hops : ∀ op ∈ ops, op.twoParty) :
    ∀ n, ledgerIdentity (runLedgerOpsG (DbState.empty, GhostTotals.zero) (ops.take n)) := by
  intro n
  have hstart : ledgerInv (DbState.empty, GhostTotals.zero) :=
    ⟨fun _ _ heq => Option.noConfusion heq,
     fun _ _ heq => Option.noConfusion heq,
     fun _ _ => ⟨rfl, rfl⟩⟩
  exact (ledgerInv_runLedgerOpsG (ops.take n) _ hstart
    (fun op hop => hops op (List.take_subset n ops hop))).2.1

/-- Concrete store with one account that is both buyer and seller reference. -/
def selfTradeDb : DbState :=
  { DbState.empty with
      poolBalances := fun h => if h = "X" then some ⟨"X", "X", 5, 5, 0⟩ else none }

/-- The self-settlement anomaly, reproduced by the (column-faithful) model:
when `buyerAccountHash = encryptedSeller`, the seller credit overwrites the
buyer debit with the stale pre-debit balance plus the price while the
buyer's `totalSpent` increment persists — from `(balance 5, deposited 5,
spent 0)` a self-buy at price 2 stores `(balance 7, deposited 5, spent 2)`,
which satisfies no identity of the form
`balance = deposited − spent + proceeds − withdrawn` (7 ≠ 5 − 2 + 2 − 0).
This is why `ledger_conservation_identity` carries the two-party hypothesis. -/
theorem atomicPoolBuy_self_settlement_anomaly :
    (applyLedgerOp selfTradeDb (.poolBuy "N1" "L1" "X" "0xeb" "X" 2 none)).poolBalances "X"
      = some ⟨"X", "X", 7, 5, 2⟩
    ∧ ¬ ((7 : ℚ) = 5 - 2 + 2 - 0) := by
  constructor
  · norm_num [applyLedgerOp, atomicPoolBuy, getPoolBalance, setPoolRow,
      updatePoolBalanceColumn, recordPoolTransaction, createTrade, updateNftOwner,
      deactivateListing, selfTradeDb, DbState.empty, PoolBalance.mk.injEq]
  · norm_num

/-- Two-party operation sequence for the C8 witness: deposit 5, withdraw 2,
then a settlement between distinct accounts. -/
def c8wOps : List LedgerOp :=
  [.poolOp "0xa" "0xa" 5 .deposit,
   .poolOp "0xa" "0xa" 2 .withdraw,
   .poolBuy "N1" "L1" "0xa" "0xeb" "0xs" 1 none]

/-- Every operation of the C8 witness sequence is two-party. -/
theorem c8wOps_twoParty : ∀ op ∈ c8wOps, op.twoParty := by
  intro op hop
  simp only [c8wOps, List.mem_cons, List.not_mem_nil, or_false] at hop
  rcases hop with rfl | rfl | rfl
  · trivial
  · trivial
  · show ("0xa" : String) ≠ "0xs"
    decide

/-- Witness for the amended C8 at a concrete two-party operation sequence. -/
theorem ledger_conservation_identity_witness :
    (∀ op ∈ c8wOps, op.twoParty) ∧
    ledgerIdentity (runLedgerOpsG (DbState.empty, GhostTotals.zero) (c8wOps.take 3)) :=
  ⟨c8wOps_twoParty, ledger_conservation_identity c8wOps c8wOps_twoParty 3⟩

/-! ## Claim C10 -/

/-- C10: a successful `POST /api/buy` on an actively listed asset not owned
by the buyer creates exactly one `Trade` row, re-points the NFT's ownership
to the buyer and deactivates the listing, while leaving every pool balance
unchanged, leaving the replay-protection state unchanged (the route performs
no signature verification and consumes no nonce) and issuing no chain write. -/
theorem buy_route_effects
    (env : ChainEnv) (body : BuyBody) (db : DbState) (nonces : NonceState)
    (nft : Nft) (listing : Listing)
    (hnft : getNftById db body.nftId = some nft)
    (hlist : getListingByNftId db body.nftId = some listing)
    (hlid : listing.id = body.listingId)
    (hchain : ∀ addr,
      (getCollectionById db nft.collectionId).bind (fun c => c.contractAddress) = some addr →
      (checkOnChainListingStatus env.isListedOnChain env.listingPriceOnChain
        addr nft.tokenId).isListed = true)
    (hown : nft.encryptedOwner ≠ body.encryptedBuyer) :
    ∃ db', buyHandler env body db nonces
        = ⟨⟨200, "NFT purchased successfully"⟩, db', nonces, []⟩
      ∧ db'.trades = db.trades
          ++ [⟨body.nftId, body.encryptedBuyer, listing.encryptedSeller, listing.price⟩]
      ∧ (getNftById db' body.nftId).map Nft.encryptedOwner = some body.encryptedBuyer
      ∧ (∀ l ∈ db'.listings, l.id = body.listingId → l.isActive = false)
      ∧ db'.poolBalances = db.poolBalances := by
  have honchain : (match (getCollectionById db nft.collectionId).bind
        (fun c => c.contractAddress) with
      | some addr => (checkOnChainListingStatus env.isListedOnChain
          env.listingPriceOnChain addr nft.tokenId).isListed
      | none => true) = true := by
    cases haddr : (getCollectionById db nft.collectionId).bind (fun c => c.contractAddress) with
    | none => rfl
    | some addr => exact hchain addr haddr
  simp only [buyHandler, hnft, hlist, honchain, Bool.not_true, Bool.false_eq_true,
    if_false, ne_eq, hlid, not_true_eq_false, hown]
  refine ⟨_, rfl, rfl, ?_, ?_, rfl⟩
  · simp [deactivateListing, updateNftOwner, createTrade, getNftById, hnft]
    exact ⟨nft, hnft⟩
  · intro l hl hid
    revert hl
    simp only [deactivateListing, updateNftOwner, createTrade, List.mem_map]
    rintro ⟨a, _, rfl⟩
    by_cases ha : a.id = body.listingId <;> simp_all

/-- Chain environment for the C10 witness: everything configured and healthy. -/
def w10Env : ChainEnv :=
  { isListedOnChain := fun _ _ => .ok true
    listingPriceOnChain := fun _ _ => .ok 2
    buyResult := ⟨true, some "0xtx", none⟩
    encResult := .ok ("0xhandle", "0xproof")
    relayerConfigured := true
    fhevmConfigured := true }

/-- Concrete database for the C10 witness. -/
def w10Db : DbState :=
  { DbState.empty with
      listings := [⟨"L1", "N1", "0xs", 2, true⟩]
      nfts := fun i => if i = "N1" then some ⟨"N1", "C1", 7, "0xso"⟩ else none
      collections := [⟨"C1", some "0xcontract"⟩] }

/-- Concrete request body for the C10 witness. -/
def w10Body : BuyBody := ⟨"N1", "L1", "0xbuyer"⟩

/-- Witness for C10 at a concrete store and request. -/
theorem buy_route_effects_witness :
    getNftById w10Db "N1" = some ⟨"N1", "C1", 7, "0xso"⟩ ∧
    getListingByNftId w10Db "N1" = some ⟨"L1", "N1", "0xs", 2, true⟩ ∧
    "0xso" ≠ "0xbuyer" ∧
    (∃ db', buyHandler w10Env w10Body w10Db NonceState.empty
        = ⟨⟨200, "NFT purchased successfully"⟩, db', NonceState.empty, []⟩
      ∧ db'.trades = w10Db.trades ++ [⟨"N1", "0xbuyer", "0xs", 2⟩]
      ∧ (getNftById db' "N1").map Nft.encryptedOwner = some "0xbuyer"
      ∧ (∀ l ∈ db'.listings, l.id = "L1" → l.isActive = false)
      ∧ db'.poolBalances = w10Db.poolBalances) :=
  ⟨rfl, rfl, by decide,
    buy_route_effects w10Env w10Body w10Db NonceState.empty
      ⟨"N1", "C1", 7, "0xso"⟩ ⟨"L1", "N1", "0xs", 2, true⟩
      rfl rfl rfl (fun _ _ => rfl) (by decide)⟩

/-! ## Claim C4 -/

/-- C4: when the external ledger write (`buyNFTViaRelayer`) fails during a
settlement whose preconditions all passed, `POST /api/buy/private` responds
500 with the relayer's error and the database is returned exactly as it was:
no pool balance moves, no `Trade` row is created, the NFT ownership pointer
and the listing rows are untouched. -/
theorem chain_failure_no_mutation
    (kc : String → String) (rc : BuyData → String → String) (env : ChainEnv)
    (nowMs : Nat) (body : PrivateBuyBody) (db : DbState) (nonces : NonceState)
    (sgn : String) (st' : NonceState) (nft : Nft) (addr : String)
    (listing : Listing) (bpb : PoolBalance) (encPair : String × String)
    (hcfg1 : env.relayerConfigured = true) (hcfg2 : env.fhevmConfigured = true)
    (hauth : verifySignedRequest kc rc body.signedRequest body.accountHash nowMs nonces
      = (.ok sgn, st'))
    (hnft : getNftById db body.nftId = some nft)
    (haddr : (getCollectionById db nft.collectionId).bind (fun c => c.contractAddress)
      = some addr)
    (hlist : getListingByNftId db body.nftId = some listing)
    (hchain : (checkOnChainListingStatus env.isListedOnChain env.listingPriceOnChain
        addr nft.tokenId).isListed = true)
    (hown : nft.encryptedOwner ≠ body.encryptedBuyer)
    (hbal : getPoolBalance db body.accountHash = some bpb)
    (hge : ¬ bpb.balance < listing.price)
    (henc : env.encResult = .ok encPair)
    (hfail : env.buyResult.success = false) :
    buyPrivateHandler kc rc env nowMs body db nonces
      = ⟨⟨500, env.buyResult.error.getD "Private buy failed"⟩, db, st',
          ["buyNFTViaRelayer"]⟩ := by
  simp only [buyPrivateHandler, hcfg1, hcfg2, hauth, hnft, haddr, hlist, hchain,
    Bool.not_true, Bool.false_eq_true, if_false, privateBuySettle, hown,
    hbal, hge, henc, hfail]
  rfl

/-- Account-hash oracle for the C4 witness (`keccak256` abstracted). -/
def w4Kc : String → String := fun s => "h" ++ s

/-- Signature-recovery oracle for the C4 witness: recovery yields `0xa`. -/
def w4Rc : BuyData → String → String := fun _ _ => "0xa"

/-- Signed buy request for the C4 witness. -/
def w4Req : SignedReq := ⟨⟨"N1", "2", 1, 1000⟩, "0xsig", "0xa"⟩

/-- Request body for the C4 witness. -/
def w4Body : PrivateBuyBody := ⟨"N1", "0xbuyer", "0xa", "h0xa", w4Req⟩

/-- Chain environment for the C4 witness: healthy until the relayer write,
which fails. -/
def w4Env : ChainEnv :=
  { isListedOnChain := fun _ _ => .ok true
    listingPriceOnChain := fun _ _ => .ok 2
    buyResult := ⟨false, none, some "execution reverted"⟩
    encResult := .ok ("0xhandle", "0xproof")
    relayerConfigured := true
    fhevmConfigured := true }

/-- Concrete database for the C4 witness. -/
def w4Db : DbState :=
  { DbState.empty with
      poolBalances := fun h => if h = "h0xa" then some ⟨"h0xa", "0xa", 5, 5, 0⟩ else none
      listings := [⟨"L1", "N1", "0xs", 2, true⟩]
      nfts := fun i => if i = "N1" then some ⟨"N1", "C1", 7, "0xso"⟩ else none
      collections := [⟨"C1", some "0xc"⟩] }

/-- Replay-protection state after the C4 witness request authorizes. -/
def w4St : NonceState := ⟨[("0xa", "1")], [(("0xa", "1"), 5000)]⟩

/-- Witness for C4: a concrete settlement aborted by the failed relayer write
leaves the concrete database untouched. -/
theorem chain_failure_no_mutation_witness :
    verifySignedRequest w4Kc w4Rc w4Req "h0xa" 5000 NonceState.empty
      = (.ok "0xa", w4St) ∧
    getNftById w4Db "N1" = some ⟨"N1", "C1", 7, "0xso"⟩ ∧
    getListingByNftId w4Db "N1" = some ⟨"L1", "N1", "0xs", 2, true⟩ ∧
    getPoolBalance w4Db "h0xa" = some ⟨"h0xa", "0xa", 5, 5, 0⟩ ∧
    ¬ ((5 : ℚ) < 2) ∧ w4Env.buyResult.success = false ∧
    buyPrivateHandler w4Kc w4Rc w4Env 5000 w4Body w4Db NonceState.empty
      = ⟨⟨500, "execution reverted"⟩, w4Db, w4St, ["buyNFTViaRelayer"]⟩ :=
  ⟨rfl, rfl, rfl, rfl, by norm_num, rfl,
    chain_failure_no_mutation w4Kc w4Rc w4Env 5000 w4Body w4Db NonceState.empty
      "0xa" w4St ⟨"N1", "C1", 7, "0xso"⟩ "0xc" ⟨"L1", "N1", "0xs", 2, true⟩
      ⟨"h0xa", "0xa", 5, 5, 0⟩ ("0xhandle", "0xproof")
      rfl rfl rfl rfl rfl rfl rfl (by decide) rfl (by norm_num) rfl rfl⟩

/-! ## Claim C5 -/

/-- Deactivating a listing is idempotent (safe for read-repair). -/
theorem deactivateListing_idem (s : DbState) (lid : String) :
    deactivateListing (deactivateListing s lid) lid = deactivateListing s lid := by
  simp only [deactivateListing, List.map_map]
  congr 1
  refine List.map_congr_left ?_
  intro a _
  by_cases ha : a.id = lid <;> simp [Function.comp, ha]

/-- C5: at the pre-settlement reconciliation point of `POST /api/buy/private`
(authorization passed, NFT / collection / active local listing found), if the
external ledger reports the asset as not listed the request aborts with 400
before any chain write (empty write log) and before any balance mutation
(pool balances, trades and NFT rows of the returned state are untouched), and
the local listing is deactivated — idempotently; if the ledger agrees the
listing is active, the handler proceeds into the settlement tail with the
local listing unchanged. -/
theorem stale_listing_reconciliation
    (kc : String → String) (rc : BuyData → String → String) (env : ChainEnv)
    (nowMs : Nat) (body : PrivateBuyBody) (db : DbState) (nonces : NonceState)
    (sgn : String) (st' : NonceState) (nft : Nft) (addr : String) (listing : Listing)
    (hcfg1 : env.relayerConfigured = true) (hcfg2 : env.fhevmConfigured = true)
    (hauth : verifySignedRequest kc rc body.signedRequest body.accountHash nowMs nonces
      = (.ok sgn, st'))
    (hnft : getNftById db body.nftId = some nft)
    (haddr : (getCollectionById db nft.collectionId).bind (fun c => c.contractAddress)
      = some addr)
    (hlist : getListingByNftId db body.nftId = some listing) :
    ((checkOnChainListingStatus env.isListedOnChain env.listingPriceOnChain
        addr nft.tokenId).isListed = false →
      buyPrivateHandler kc rc env nowMs body db nonces
        = ⟨⟨400, "NFT is no longer listed for sale. The listing has been updated."⟩,
            deactivateListing db listing.id, st', []⟩
      ∧ deactivateListing (deactivateListing db listing.id) listing.id
          = deactivateListing db listing.id
      ∧ (deactivateListing db listing.id).poolBalances = db.poolBalances
      ∧ (deactivateListing db listing.id).trades = db.trades
      ∧ (deactivateListing db listing.id).nfts = db.nfts) ∧
    ((checkOnChainListingStatus env.isListedOnChain env.listingPriceOnChain
        addr nft.tokenId).isListed = true →
      buyPrivateHandler kc rc env nowMs body db nonces
        = privateBuySettle env body db st' nft listing) := by
  constructor
  · intro hstale
    refine ⟨?_, deactivateListing_idem db listing.id, rfl, rfl, rfl⟩
    simp only [buyPrivateHandler, hcfg1, hcfg2, hauth, hnft, haddr, hlist, hstale,
      Bool.not_false, if_true]
    rfl
  · intro hlive
    simp only [buyPrivateHandler, hcfg1, hcfg2, hauth, hnft, haddr, hlist, hlive,
      Bool.not_true, Bool.false_eq_true, if_false]

/-- Chain environment for the C5 witness: the ledger reports the asset as not
listed. -/
def w5Env : ChainEnv :=
  { isListedOnChain := fun _ _ => .ok false
    listingPriceOnChain := fun _ _ => .ok 2
    buyResult := ⟨true, some "0xtx", none⟩
    encResult := .ok ("0xhandle", "0xproof")
    relayerConfigured := true
    fhevmConfigured := true }

/-- Witness for C5: a concrete stale listing is read-repaired and the request
aborts with no chain write and no balance mutation. -/
theorem stale_listing_reconciliation_witness :
    verifySignedRequest w4Kc w4Rc w4Req "h0xa" 5000 NonceState.empty
      = (.ok "0xa", w4St) ∧
    (checkOnChainListingStatus w5Env.isListedOnChain w5Env.listingPriceOnChain
      "0xc" 7).isListed = false ∧
    (buyPrivateHandler w4Kc w4Rc w5Env 5000 w4Body w4Db NonceState.empty
        = ⟨⟨400, "NFT is no longer listed for sale. The listing has been updated."⟩,
            deactivateListing w4Db "L1", w4St, []⟩
      ∧ deactivateListing (deactivateListing w4Db "L1") "L1"
          = deactivateListing w4Db "L1"
      ∧ (deactivateListing w4Db "L1").poolBalances = w4Db.poolBalances
      ∧ (deactivateListing w4Db "L1").trades = w4Db.trades
      ∧ (deactivateListing w4Db "L1").nfts = w4Db.nfts) :=
  ⟨rfl, rfl,
    (stale_listing_reconciliation w4Kc w4Rc w5Env 5000 w4Body w4Db NonceState.empty
      "0xa" w4St ⟨"N1", "C1", 7, "0xso"⟩ "0xc" ⟨"L1", "N1", "0xs", 2, true⟩
      rfl rfl rfl rfl rfl rfl).1 rfl⟩

/-! ## Claim C6 -/

/-- A signed request whose `expiresAt` (100 s) is in the past at
authorization time. -/
def w6Req : SignedReq := ⟨⟨"N1", "2", 1, 100⟩, "0xsig", "0xa"⟩

/-- Counterexample to C6 as stated: an expired request with a valid
signature and matching account hash is rejected, but with the
`Invalid signature` error — `verifySignature` itself rejects expired payloads
before the route's own `Request expired` branch can run — not with the
Expired error the claim names.  (No state is touched either way.) -/
theorem expired_request_counterexample :
    1000 * w6Req.data.expiresAt < 102000 ∧
    verifySignedRequest w4Kc w4Rc w6Req "h0xa" 102000 NonceState.empty
      = (.err "Invalid signature", NonceState.empty) ∧
    VerifyResult.err "Invalid signature" ≠ VerifyResult.err "Request expired" :=
  ⟨by norm_num [w6Req], rfl, by decide⟩

/-- C6 amended: authorization of a request whose `expiresAt` lies in the past
always fails and causes no state change — the replay-protection state is
returned untouched, so the (signer, nonce) pair stays unconsumed (and the
authorizer touches no ledger row at all) — but the error is
`Invalid signature` (from the signature verifier's internal floor-second
expiry check) whenever a full second has elapsed past expiry, and
`Request expired` only in the sub-second window in which the route's own
fractional-seconds check fires first. -/
theorem expired_request_rejected
    (kc : String → String) (rc : BuyData → String → String)
    (req : SignedReq) (hash : String) (nowMs : Nat) (st : NonceState)
    (hkc : kc (strLower req.signer) = hash)
    (hrc : strLower (rc req.data req.signature) = strLower req.signer)
    (hpos : 0 < req.data.expiresAt)
    (hexp : 1000 * req.data.expiresAt < nowMs) :
    verifySignedRequest kc rc req hash nowMs st
      = (if nowMs / 1000 > req.data.expiresAt then VerifyResult.err "Invalid signature"
         else VerifyResult.err "Request expired", st) := by
  by_cases hfloor : nowMs / 1000 > req.data.expiresAt
  · simp [verifySignedRequest, verifySignature, isSignatureExpired, hkc, hfloor]
  · simp [verifySignedRequest, verifySignature, isSignatureExpired, hkc, hrc, hfloor,
      hexp, Nat.pos_iff_ne_zero.mp hpos]

/-- Witness for the amended C6 at a concrete expired request. -/
theorem expired_request_rejected_witness :
    w4Kc (strLower w6Req.signer) = "h0xa" ∧
    strLower (w4Rc w6Req.data w6Req.signature) = strLower w6Req.signer ∧
    0 < w6Req.data.expiresAt ∧ 1000 * w6Req.data.expiresAt < 102000 ∧
    verifySignedRequest w4Kc w4Rc w6Req "h0xa" 102000 NonceState.empty
      = (if 102000 / 1000 > w6Req.data.expiresAt then VerifyResult.err "Invalid signature"
         else VerifyResult.err "Request expired", NonceState.empty) :=
  ⟨rfl, rfl, by norm_num [w6Req], by norm_num [w6Req],
    expired_request_rejected w4Kc w4Rc w6Req "h0xa" 102000 NonceState.empty
      rfl rfl (by norm_num [w6Req]) (by norm_num [w6Req])⟩

/-! ## Claim C2 -/

/-- A signed buy request with a far-future `expiresAt` (10⁹ s). -/
def w2Req : SignedReq := ⟨⟨"N1", "2", 7, 1000000000⟩, "0xsig", "0xa"⟩

/-- Counterexample to C2 as stated: the same byte-identical request
authorizes successfully twice. It succeeds at time 0; the periodic garbage
collection sweep at `2 × NONCE_EXPIRY_MS + 1` ms deletes the consumed
(signer, nonce) record (the request's far-future `expiresAt` outlives the
sweep window); the byte-identical replay then authorizes again instead of
failing with the replay-detected error. -/
theorem replay_after_gc_counterexample :
    (verifySignedRequest w4Kc w4Rc w2Req "h0xa" 0 NonceState.empty).1
      = .ok "0xa" ∧
    (verifySignedRequest w4Kc w4Rc w2Req "h0xa" 600002
        (((verifySignedRequest w4Kc w4Rc w2Req "h0xa" 0 NonceState.empty).2).gcSweep
          600001)).1
      = .ok "0xa" :=
  ⟨rfl, rfl⟩

/-- The (signer, nonce) pair `p` is currently consumed with (unique)
consumption timestamp `t0`. -/
def nonceHeld (st : NonceState) (p : String × String) (t0 : Nat) : Prop :=
  p ∈ st.used ∧ (p, t0) ∈ st.timestamps ∧ ∀ t', (p, t') ∈ st.timestamps → t' = t0

/-- Anatomy of a successful `verifySignedRequest`: the account hash matched,
the signature verified, the pair was unconsumed, and the state gained exactly
that pair with the current timestamp. -/
theorem verify_ok_shape (kc : String → String) (rc : BuyData → String → String)
    (req : SignedReq) (hash : String) (t : Nat) (st : NonceState)
    (sgn : String) (st' : NonceState)
    (h : verifySignedRequest kc rc req hash t st = (.ok sgn, st')) :
    kc (strLower req.signer) = hash ∧
    verifySignature rc req req.signer t = true ∧
    (strLower req.signer, toString req.data.nonce) ∉ st.used ∧
    st' = ⟨(strLower req.signer, toString req.data.nonce) :: st.used,
           ((strLower req.signer, toString req.data.nonce), t) :: st.timestamps⟩ := by
  simp only [verifySignedRequest] at h
  split_ifs at h with h1 h2 h3 h4
  case _ => simp at h
  case _ => simp at h
  case _ => simp at h
  case _ => simp at h
  case _ =>
    rw [Prod.mk.injEq] at h
    exact ⟨not_not.mp h1, by simpa using h2, h4, h.2.symm⟩

/-- A successful signature verification pins the recovered address. -/
theorem verifySignature_true_elim (rc : BuyData → String → String)
    (req : SignedReq) (expectedSigner : String) (t : Nat)
    (h : verifySignature rc req expectedSigner t = true) :
    strLower (rc req.data req.signature) = strLower req.signer := by
  rw [verifySignature] at h
  split_ifs at h
  exact of_decide_eq_true h

/-- An unexpired request whose recovery matches its declared signer passes
`verifySignature` against that signer. -/
theorem verifySignature_unexpired (rc : BuyData → String → String)
    (req : SignedReq) (t : Nat)
    (hrc : strLower (rc req.data req.signature) = strLower req.signer)
    (hne : ¬ t / 1000 > req.data.expiresAt) :
    verifySignature rc req req.signer t = true := by
  rw [verifySignature]
  simp [isSignatureExpired, hne, hrc]

/-- Authorization attempts never un-consume a held pair. -/
theorem nonceHeld_verify (kc : String → String) (rc : BuyData → String → String)
    (req : SignedReq) (hash : String) (t : Nat) (st : NonceState)
    (p : String × String) (t0 : Nat) (hheld : nonceHeld st p t0) :
    nonceHeld (verifySignedRequest kc rc req hash t st).2 p t0 := by
  simp only [verifySignedRequest]
  split_ifs with h1 h2 h3 h4
  case _ => exact hheld
  case _ => exact hheld
  case _ => exact hheld
  case _ => exact hheld
  case _ =>
    obtain ⟨hu, ht, huniq⟩ := hheld
    refine ⟨List.mem_cons_of_mem _ hu, List.mem_cons_of_mem _ ht, ?_⟩
    intro t' ht'
    rcases List.mem_cons.mp ht' with heq | hmem
    · rw [Prod.mk.injEq] at heq
      exact absurd (heq.1 ▸ hu) h4
    · exact huniq t' hmem

/-- A garbage-collection sweep no later than `2 × NONCE_EXPIRY_MS` after
consumption keeps the pair consumed. -/
theorem nonceHeld_sweep (st : NonceState) (p : String × String) (t0 : Nat)
    (T : Nat) (hheld : nonceHeld st p t0)
    (hT : T ≤ t0 + NONCE_EXPIRY_MS * 2) :
    nonceHeld (st.gcSweep T) p t0 := by
  obtain ⟨hu, ht, huniq⟩ := hheld
  have hnotexp : ¬ T - t0 > NONCE_EXPIRY_MS * 2 := by omega
  refine ⟨?_, ?_, ?_⟩
  · refine List.mem_filter.mpr ⟨hu, ?_⟩
    simp only [Bool.not_eq_eq_eq_not, Bool.not_true, List.any_eq_false,
      Bool.and_eq_true, beq_iff_eq, decide_eq_true_eq, not_and]
    intro e he hep
    have : e = (p, e.2) := by rw [← hep]
    have he2 : e.2 = t0 := huniq e.2 (this ▸ he)
    rw [he2]
    exact hnotexp
  · refine List.mem_filter.mpr ⟨ht, ?_⟩
    simp [hnotexp]
  · intro t' ht'
    exact huniq t' (List.mem_filter.mp ht').1

/-- A held pair stays held across any event sequence whose times stay within
`2 × NONCE_EXPIRY_MS` of the consumption time. -/
theorem nonceHeld_run (kc : String → String) (rc : BuyData → String → String)
    (evs : List NonceEvent) :
    ∀ st p t0, nonceHeld st p t0 →
      (∀ ev ∈ evs, ev.time ≤ t0 + NONCE_EXPIRY_MS * 2) →
      nonceHeld (runNonceEvents kc rc st evs) p t0 := by
  induction evs with
  | nil => intro st p t0 hheld _; exact hheld
  | cons ev rest ih =>
    intro st p t0 hheld hevs
    have h1 : nonceHeld (applyNonceEvent kc rc st ev) p t0 := by
      cases ev with
      | request req hash t => exact nonceHeld_verify kc rc req hash t st p t0 hheld
      | sweep T =>
        exact nonceHeld_sweep st p t0 T hheld (hevs (.sweep T) (by simp) : _)
    exact ih _ p t0 h1 (fun e he => hevs e (by simp [he]))

/-- C2 amended: after a successful authorization of a request whose
(signer, nonce) pair was fresh, a byte-identical replay is rejected with the
replay-detected error (and consumes nothing) as long as (a) every intervening
event — request or GC sweep — happens within `2 × NONCE_EXPIRY_MS` (10 min)
of the consumption time, and (b) the replay arrives while the request is
still unexpired.  (Outside those bounds the guarantee genuinely fails: the
sweep deletes the record and a still-unexpired replay authorizes again, as
the counterexample shows; an expired replay is rejected, but with the
invalid-signature error.) -/
theorem replay_rejected_within_window
    (kc : String → String) (rc : BuyData → String → String)
    (req : SignedReq) (hash : String) (t0 : Nat) (st0 : NonceState)
    (sgn : String) (st1 : NonceState)
    (hfresh : ∀ t', ((strLower req.signer, toString req.data.nonce), t')
      ∉ st0.timestamps)
    (hfirst : verifySignedRequest kc rc req hash t0 st0 = (.ok sgn, st1))
    (evs : List NonceEvent)
    (hevs : ∀ ev ∈ evs, ev.time ≤ t0 + NONCE_EXPIRY_MS * 2)
    (t1 : Nat) (ht1 : t1 ≤ 1000 * req.data.expiresAt) :
    verifySignedRequest kc rc req hash t1 (runNonceEvents kc rc st1 evs)
      = (.err "Replay attack detected: nonce already used",
         runNonceEvents kc rc st1 evs) := by
  obtain ⟨hkc, hsig, hnotin, hst1⟩ :=
    verify_ok_shape kc rc req hash t0 st0 sgn st1 hfirst
  have hrc := verifySignature_true_elim rc req req.signer t0 hsig
  have hheld1 : nonceHeld st1 (strLower req.signer, toString req.data.nonce) t0 := by
    rw [hst1]
    refine ⟨List.mem_cons_self _ _, List.mem_cons_self _ _, ?_⟩
    intro t' ht'
    rcases List.mem_cons.mp ht' with heq | hmem
    · exact (Prod.mk.injEq _ _ _ _).mp heq |>.2
    · exact absurd hmem (hfresh t')
  have hheld := nonceHeld_run kc rc evs st1
    (strLower req.signer, toString req.data.nonce) t0 hheld1 hevs
  have hnofl : ¬ t1 / 1000 > req.data.expiresAt := by
    have h1 : t1 / 1000 ≤ 1000 * req.data.expiresAt / 1000 :=
      Nat.div_le_div_right ht1
    rw [Nat.mul_div_cancel_left _ (by norm_num)] at h1
    omega
  have hsig1 := verifySignature_unexpired rc req t1 hrc hnofl
  rw [verifySignedRequest]
  simp only [hkc, ne_eq, not_true_eq_false, if_false, hsig1, Bool.not_true,
    Bool.false_eq_true, if_false]
  rw [if_neg (by omega), if_pos hheld.1]

/-- Witness for the amended C2: a concrete in-window replay (after a sweep at
10 min that removes nothing) is rejected with the replay-detected error. -/
theorem replay_rejected_within_window_witness :
    verifySignedRequest w4Kc w4Rc w2Req "h0xa" 0 NonceState.empty
      = (.ok "0xa", ⟨[("0xa", "7")], [(("0xa", "7"), 0)]⟩) ∧
    (∀ ev ∈ [NonceEvent.sweep 600000], ev.time ≤ 0 + NONCE_EXPIRY_MS * 2) ∧
    300000 ≤ 1000 * w2Req.data.expiresAt ∧
    verifySignedRequest w4Kc w4Rc w2Req "h0xa" 300000
        (runNonceEvents w4Kc w4Rc ⟨[("0xa", "7")], [(("0xa", "7"), 0)]⟩
          [NonceEvent.sweep 600000])
      = (.err "Replay attack detected: nonce already used",
         runNonceEvents w4Kc w4Rc ⟨[("0xa", "7")], [(("0xa", "7"), 0)]⟩
          [NonceEvent.sweep 600000]) :=
  ⟨rfl,
   by
     intro ev hev
     simp only [List.mem_singleton] at hev
     simp [hev, NonceEvent.time, NONCE_EXPIRY_MS],
   by norm_num [w2Req],
   replay_rejected_within_window w4Kc w4Rc w2Req "h0xa" 0 NonceState.empty "0xa"
     ⟨[("0xa", "7")], [(("0xa", "7"), 0)]⟩
     (fun _ h => absurd h (List.not_mem_nil _))
     rfl [NonceEvent.sweep 600000]
     (by
       intro ev hev
       simp only [List.mem_singleton] at hev
       simp [hev, NonceEvent.time, NONCE_EXPIRY_MS])
     300000 (by norm_num [w2Req])⟩

/-! ## Claim C9 -/

/-- Rounding to the nearest integer (ties to even) moves a rational by at
most one half. -/
theorem abs_roundHalfEven_sub_le (x : ℚ) : |(roundHalfEven x : ℚ) - x| ≤ 1 / 2 := by
  rw [roundHalfEven]
  by_cases htie : Int.fract x = 1 / 2
  · have hx : (⌊x⌋ : ℚ) = x - 1 / 2 := by
      have : x - ⌊x⌋ = 1 / 2 := htie
      linarith
    rw [if_pos htie]
    by_cases hev : Even ⌊x⌋
    · rw [if_pos hev, hx]
      rw [abs_le]; constructor <;> linarith
    · rw [if_neg hev]
      push_cast
      rw [hx]
      rw [abs_le]; constructor <;> linarith
  · rw [if_neg htie]
    rw [abs_sub_comm]
    exact abs_sub_round x

/-- Uniqueness of the base-2 integer logarithm from its bracketing powers. -/
theorem int_log2_eq {q : ℚ} {z : ℤ} (h0 : 0 < q)
    (h1 : (2 : ℚ) ^ z ≤ q) (h2 : q < (2 : ℚ) ^ (z + 1)) :
    Int.log 2 q = z := by
  have hle : z ≤ Int.log 2 q :=
    (Int.zpow_le_iff_le_log one_lt_two h0).mp (by push_cast; exact h1)
  have hlt : Int.log 2 q < z + 1 :=
    (Int.lt_zpow_iff_log_lt one_lt_two h0).mp (by push_cast; exact h2)
  omega

/-- Binary64 rounding moves a nonnegative rational by at most `q / 2⁵²` (a
generous bound of one unit in the last place of the 53-bit significand). -/
theorem dround_err (q : ℚ) (hq : 0 ≤ q) : |dround q - q| ≤ q / 2 ^ 52 := by
  rcases eq_or_lt_of_le hq with h0 | h0
  · rw [← h0]
    simp [dround]
  · rw [dround, if_neg h0.ne']
    have habs : |q| = q := abs_of_pos h0
    have h2e : (0 : ℚ) < 2 ^ (Int.log 2 |q| - 52) := zpow_pos (by norm_num) _
    have key := abs_roundHalfEven_sub_le (q / 2 ^ (Int.log 2 |q| - 52))
    have hlogle : (2 : ℚ) ^ Int.log 2 q ≤ q := by
      have := Int.zpow_log_le_self (b := 2) one_lt_two h0
      push_cast at this
      exact this
    calc |(roundHalfEven (q / 2 ^ (Int.log 2 |q| - 52)) : ℚ)
            * 2 ^ (Int.log 2 |q| - 52) - q|
        = |(roundHalfEven (q / 2 ^ (Int.log 2 |q| - 52)) : ℚ)
            - q / 2 ^ (Int.log 2 |q| - 52)| * 2 ^ (Int.log 2 |q| - 52) := by
          rw [show (roundHalfEven (q / 2 ^ (Int.log 2 |q| - 52)) : ℚ)
                * 2 ^ (Int.log 2 |q| - 52) - q
              = ((roundHalfEven (q / 2 ^ (Int.log 2 |q| - 52)) : ℚ)
                - q / 2 ^ (Int.log 2 |q| - 52)) * 2 ^ (Int.log 2 |q| - 52) from by
            rw [sub_mul, div_mul_cancel₀ _ (ne_of_gt h2e)]]
          rw [abs_mul, abs_of_pos h2e]
      _ ≤ (1 / 2) * 2 ^ (Int.log 2 |q| - 52) :=
          mul_le_mul_of_nonneg_right key h2e.le
      _ = 2 ^ (Int.log 2 |q| - 53) := by
          rw [habs]
          rw [show Int.log 2 q - 53 = (Int.log 2 q - 52) - 1 from by ring,
            zpow_sub_one₀ (by norm_num)]
          ring
      _ ≤ q / 2 ^ 52 := by
          rw [habs]
          rw [show Int.log 2 q - 53 = Int.log 2 q + (-53) from by ring,
            zpow_add₀ (by norm_num : (2:ℚ) ≠ 0)]
          have h53 : (2 : ℚ) ^ (-53 : ℤ) ≤ 2 ^ (-52 : ℤ) := by
            apply zpow_le_zpow_right₀ (by norm_num)
            norm_num
          calc (2 : ℚ) ^ Int.log 2 q * 2 ^ (-53 : ℤ)
              ≤ q * 2 ^ (-52 : ℤ) := by
                apply mul_le_mul hlogle h53 (by positivity) hq
            _ = q / 2 ^ 52 := by
                rw [zpow_neg, div_eq_mul_inv]
                norm_num

/-- `toFixed(8)` recovers an exact 8-decimal value from any rational within
half an ulp (`5·10⁻⁹`) of it. -/
theorem toFixed8_eq (n : ℤ) (q : ℚ) (h : |q - n / 10 ^ 8| < 1 / (2 * 10 ^ 8)) :
    toFixed8 q = n / 10 ^ 8 := by
  rw [toFixed8]
  have habs := abs_lt.mp h
  have hround : round (q * 10 ^ 8) = n := by
    rw [round_eq]
    apply Int.floor_eq_iff.mpr
    constructor
    · have := habs.1
      nlinarith
    · have := habs.2
      nlinarith
  rw [hround]

/-- The numeric value of `2⁵²`. -/
theorem two_pow_52_val : (2 : ℚ) ^ 52 = 4503599627370496 := by norm_num

/-- Exactness of the binary64 deposit arithmetic below `10⁶`: for 8-decimal
nonnegative inputs whose sum stays at most `10⁶`, the stored balance
`(parseFloat(b) + parseFloat(x)).toFixed(8)` is exactly `b + x`. -/
theorem jsDeposit_exact (bn xn : ℕ)
    (hsum : (bn : ℚ) / 10 ^ 8 + (xn : ℚ) / 10 ^ 8 ≤ 10 ^ 6) :
    jsDeposit ((bn : ℚ) / 10 ^ 8) ((xn : ℚ) / 10 ^ 8)
      = (bn : ℚ) / 10 ^ 8 + (xn : ℚ) / 10 ^ 8 := by
  set B := (bn : ℚ) / 10 ^ 8 with hBdef
  set X := (xn : ℚ) / 10 ^ 8 with hXdef
  have hB : 0 ≤ B := by positivity
  have hX : 0 ≤ X := by positivity
  have h1 := abs_le.mp (dround_err B hB)
  have h2 := abs_le.mp (dround_err X hX)
  have hS0 : 0 ≤ dround B + dround X := by
    rw [two_pow_52_val] at h1 h2
    nlinarith
  have h3 := abs_le.mp (dround_err (dround B + dround X) hS0)
  rw [jsDeposit]
  have hcast : ((bn + xn : ℤ) : ℚ) / 10 ^ 8 = B + X := by
    rw [hBdef, hXdef]
    push_cast
    ring
  rw [show B + X = ((bn + xn : ℤ) : ℚ) / 10 ^ 8 from hcast.symm]
  apply toFixed8_eq
  rw [hcast]
  rw [two_pow_52_val] at h1 h2 h3
  rw [abs_lt]
  constructor <;> nlinarith

/-- C9 amended: the deposit arithmetic is exact to 8 decimals only for
bounded magnitudes — proved here for prior balance plus deposit at most
`10⁶` ETH (far above the pool's realistic range but far below where binary64
ulps reach `10⁻⁸`); in particular 10,000 repeated deposits of `0.00000001`
from zero accumulate to exactly `0.0001`.  For large balances exactness
fails (see the counterexample at `2·10⁸`). -/
theorem deposit_exact_bounded :
    (∀ bn xn : ℕ, (bn : ℚ) / 10 ^ 8 + (xn : ℚ) / 10 ^ 8 ≤ 10 ^ 6 →
      jsDeposit ((bn : ℚ) / 10 ^ 8) ((xn : ℚ) / 10 ^ 8)
        = (bn : ℚ) / 10 ^ 8 + (xn : ℚ) / 10 ^ 8) ∧
    (∀ n : ℕ, n ≤ 10000 → iterJsDeposit 0 (1 / 10 ^ 8) n = (n : ℚ) / 10 ^ 8) := by
  refine ⟨fun bn xn h => jsDeposit_exact bn xn h, ?_⟩
  intro n hn
  induction n with
  | zero => simp [iterJsDeposit]
  | succ k ih =>
    have hk : k ≤ 10000 := Nat.le_of_succ_le hn
    rw [iterJsDeposit, ih hk]
    have h1 : (1 / 10 ^ 8 : ℚ) = ((1 : ℕ) : ℚ) / 10 ^ 8 := by norm_num
    have hbound : (k : ℚ) / 10 ^ 8 + ((1 : ℕ) : ℚ) / 10 ^ 8 ≤ 10 ^ 6 := by
      have hkq : (k : ℚ) ≤ 10000 := by exact_mod_cast hk
      push_cast
      linarith
    rw [h1, jsDeposit_exact k 1 hbound]
    push_cast
    ring

/-- Witness for the amended C9: an in-range deposit is exact, and the
10,000 × 0.00000001 scenario accumulates to exactly 0.0001. -/
theorem deposit_exact_bounded_witness :
    ((50000000 : ℕ) : ℚ) / 10 ^ 8 + ((20000000 : ℕ) : ℚ) / 10 ^ 8 ≤ 10 ^ 6 ∧
    jsDeposit (((50000000 : ℕ) : ℚ) / 10 ^ 8) (((20000000 : ℕ) : ℚ) / 10 ^ 8)
      = ((50000000 : ℕ) : ℚ) / 10 ^ 8 + ((20000000 : ℕ) : ℚ) / 10 ^ 8 ∧
    iterJsDeposit 0 (1 / 10 ^ 8) 10000 = ((10000 : ℕ) : ℚ) / 10 ^ 8 :=
  ⟨by norm_num, deposit_exact_bounded.1 50000000 20000000 (by norm_num),
   deposit_exact_bounded.2 10000 (le_refl _)⟩

/-- Non-tie rounding of a rational with known bracketing. -/
theorem roundHalfEven_eq_of (q : ℚ) (m : ℤ)
    (hfr : Int.fract q ≠ 1 / 2)
    (h1 : (m : ℚ) ≤ q + 1 / 2) (h2 : q + 1 / 2 < m + 1) :
    roundHalfEven q = m := by
  rw [roundHalfEven, if_neg hfr, round_eq]
  exact Int.floor_eq_iff.mpr ⟨h1, h2⟩

/-- Establish a non-tie from the bracketing integer. -/
theorem fract_ne_half (q : ℚ) (k : ℤ)
    (h1 : (k : ℚ) ≤ q) (h2 : q < k + 1) (hne : q - k ≠ 1 / 2) :
    Int.fract q ≠ 1 / 2 := by
  have hf : ⌊q⌋ = k := Int.floor_eq_iff.mpr ⟨h1, h2⟩
  rw [Int.fract, hf]
  exact hne

/-- Binary64 rounding of `10⁻⁸`: the nearest double is
`6044629098073146 / 2⁷⁹` (slightly above `10⁻⁸`). -/
theorem dround_eps : dround (1 / 10 ^ 8 : ℚ) = 6044629098073146 / 2 ^ 79 := by
  rw [dround, if_neg (by norm_num)]
  have hlog : Int.log 2 |(1 / 10 ^ 8 : ℚ)| = -27 := by
    rw [show |(1 / 10 ^ 8 : ℚ)| = 1 / 10 ^ 8 from abs_of_pos (by norm_num)]
    exact int_log2_eq (by norm_num) (by norm_num) (by norm_num)
  rw [hlog, show (-27 : ℤ) - 52 = -79 from by norm_num]
  have harg : (1 / 10 ^ 8 : ℚ) / 2 ^ (-79 : ℤ)
      = 604462909807314587353088 / 100000000 := by
    rw [zpow_neg]
    norm_num
  rw [harg]
  have hrhe : roundHalfEven (604462909807314587353088 / 100000000 : ℚ)
      = 6044629098073146 := by
    apply roundHalfEven_eq_of
    · exact fract_ne_half _ 6044629098073145 (by norm_num) (by norm_num) (by norm_num)
    · norm_num
    · norm_num
  rw [hrhe, zpow_neg]
  norm_num

/-- `2·10⁸` is exactly representable in binary64. -/
theorem dround_two_e8 : dround (200000000 : ℚ) = 200000000 := by
  rw [dround, if_neg (by norm_num)]
  have hlog : Int.log 2 |(200000000 : ℚ)| = 27 := by
    rw [show |(200000000 : ℚ)| = 200000000 from abs_of_pos (by norm_num)]
    exact int_log2_eq (by norm_num) (by norm_num) (by norm_num)
  rw [hlog, show (27 : ℤ) - 52 = -25 from by norm_num]
  have harg : (200000000 : ℚ) / 2 ^ (-25 : ℤ) = 6710886400000000 := by
    rw [zpow_neg]
    norm_num
  rw [harg]
  have hrhe : roundHalfEven (6710886400000000 : ℚ) = 6710886400000000 := by
    apply roundHalfEven_eq_of
    · exact fract_ne_half _ 6710886400000000 (by norm_num) (by norm_num) (by norm_num)
    · norm_num
    · norm_num
  rw [hrhe, zpow_neg]
  norm_num

/-- The binary64 sum `2·10⁸ + dround 10⁻⁸` rounds back down to `2·10⁸`: the
increment is below half an ulp (`2⁻²⁶`) at this magnitude. -/
theorem dround_sum_absorbed :
    dround (200000000 + 6044629098073146 / 2 ^ 79 : ℚ) = 200000000 := by
  rw [dround, if_neg (by norm_num)]
  have hlog : Int.log 2 |(200000000 + 6044629098073146 / 2 ^ 79 : ℚ)| = 27 := by
    rw [show |(200000000 + 6044629098073146 / 2 ^ 79 : ℚ)|
        = 200000000 + 6044629098073146 / 2 ^ 79 from abs_of_pos (by norm_num)]
    exact int_log2_eq (by norm_num) (by norm_num) (by norm_num)
  rw [hlog, show (27 : ℤ) - 52 = -25 from by norm_num]
  have harg : (200000000 + 6044629098073146 / 2 ^ 79 : ℚ) / 2 ^ (-25 : ℤ)
      = 6710886400000000 + 6044629098073146 / 2 ^ 54 := by
    rw [zpow_neg]
    norm_num
  rw [harg]
  have hrhe : roundHalfEven (6710886400000000 + 6044629098073146 / 2 ^ 54 : ℚ)
      = 6710886400000000 := by
    apply roundHalfEven_eq_of
    · exact fract_ne_half _ 6710886400000000 (by norm_num) (by norm_num) (by norm_num)
    · norm_num
    · norm_num
  rw [hrhe, zpow_neg]
  norm_num

/-- Counterexample to C9 as stated: with prior balance `B = 2·10⁸` (an
8-decimal value) a deposit of `X = 10⁻⁸` is absorbed — the
`parseFloat`/`+`/`toFixed(8)` pipeline returns the balance unchanged, not
`B + X`: exactness to 8 decimals fails for large balances. -/
theorem deposit_drift_counterexample :
    jsDeposit 200000000 (1 / 10 ^ 8) = 200000000 ∧
    jsDeposit 200000000 (1 / 10 ^ 8) ≠ (200000000 : ℚ) + 1 / 10 ^ 8 := by
  have hmain : jsDeposit 200000000 (1 / 10 ^ 8) = 200000000 := by
    rw [jsDeposit, dround_two_e8, dround_eps, dround_sum_absorbed, toFixed8, round_eq]
    rw [show ⌊(200000000 : ℚ) * 10 ^ 8 + 1 / 2⌋ = 20000000000000000 from
      Int.floor_eq_iff.mpr ⟨by norm_num, by norm_num⟩]
    norm_num
  refine ⟨hmain, ?_⟩
  rw [hmain]
  norm_num
